import Mathlib

/-
Verification development for the Visual HTML Editor
(`src/utils/iframeUtils.js`, `src/components/VisualHtmlEditor.jsx`).

The DOM document tree is shallowly embedded as a rose tree of element and
text nodes.  An element mirrors a DOM element: a tag name, an attribute
list (`getAttribute`/`setAttribute`/`removeAttribute` are first-match
list operations, as attribute names are unique per element in the DOM),
an inline-style declaration list (`el.style[k] = v`), and a child list.

The functions of `iframeUtils.js` are translated over this embedding:
`attachEditorIds` (the tree-walker tagging pass), the injected click
handler, the injected `message` listener (`apply-props` and
`clear-selection` branches), and `buildIframeContents`.  The host-side
selection state of `VisualHtmlEditor.jsx` (`selectedId`, `selectionInfo`,
`applyPropsToSelected`, `clearSelection`) is embedded as a state record
plus transition functions.  HTML parsing (`DOMParser.parseFromString`
with type `text/html`, and the parsing implicit in `el.innerHTML = v`)
is a browser built-in, total for `text/html`; it is represented by a
universally quantified total parse function.
-/

/-! ## Attribute lists (DOM attribute/style semantics) -/

/-- `getAttribute`: first binding of the name, `none` when absent. -/
def getAttrL : List (String × String) → String → Option String
  | [], _ => none
  | kv :: rest, k => if kv.1 = k then some kv.2 else getAttrL rest k

/-- `setAttribute` / `el.style[k] = v`: overwrite the existing binding of the
name in place, or append a new binding when absent. -/
def setAttrL : List (String × String) → String → String → List (String × String)
  | [], k, v => [(k, v)]
  | kv :: rest, k, v => if kv.1 = k then (k, v) :: rest else kv :: setAttrL rest k v

/-- `removeAttribute`: drop every binding of the name. -/
def removeAttrL : List (String × String) → String → List (String × String)
  | [], _ => []
  | kv :: rest, k => if kv.1 = k then removeAttrL rest k else kv :: removeAttrL rest k

/-! ## Document trees -/

/-- A DOM node: a text node, or an element with a tag name, attributes,
inline style declarations, and children. -/
inductive Node where
  | text (s : String)
  | elem (tag : String) (attrs styles : List (String × String)) (children : List Node)

/-- Tag name of a node (text nodes have none). -/
def Node.tag : Node → String
  | .text _ => ""
  | .elem t _ _ _ => t

/-- Attribute list of a node. -/
def Node.attrs : Node → List (String × String)
  | .text _ => []
  | .elem _ a _ _ => a

/-- Inline style declarations of a node. -/
def Node.styles : Node → List (String × String)
  | .text _ => []
  | .elem _ _ st _ => st

/-- Child list of a node. -/
def Node.children : Node → List Node
  | .text _ => []
  | .elem _ _ _ cs => cs

/-- `getAttribute` on a node. -/
def Node.getAttr (n : Node) (k : String) : Option String :=
  getAttrL n.attrs k

/-- Two nodes agree on everything except their child list: same tag, same
attributes, same style declarations. -/
def sameShell (x y : Node) : Prop :=
  x.tag = y.tag ∧ x.attrs = y.attrs ∧ x.styles = y.styles

/- Node lookup along a child-index path (`[]` addresses the node itself). -/
mutual
def getAt : Node → List Nat → Option Node
  | n, [] => some n
  | .text _, _ :: _ => none
  | .elem _ _ _ cs, i :: p => getAtL cs i p

def getAtL : List Node → Nat → List Nat → Option Node
  | [], _, _ => none
  | c :: _, 0, p => getAt c p
  | _ :: cs, i + 1, p => getAtL cs i p
end

/- Apply `f` to the node addressed by the path, leaving the rest of the
tree unchanged (identity on invalid paths). -/
mutual
def modifyAt (f : Node → Node) : Node → List Nat → Node
  | n, [] => f n
  | .text s, _ :: _ => .text s
  | .elem t a st cs, i :: p => .elem t a st (modifyAtL f cs i p)

def modifyAtL (f : Node → Node) : List Node → Nat → List Nat → List Node
  | [], _, _ => []
  | c :: cs, 0, p => modifyAt f c p :: cs
  | c :: cs, i + 1, p => c :: modifyAtL f cs i p
end

/-- `q` lies inside the subtree rooted at the node addressed by `p`
(including `p` itself). -/
def PathBelow (p q : List Nat) : Prop := ∃ r, q = p ++ r

/-- Set an attribute on the root of a node (text nodes unchanged). -/
def setRootAttr : Node → String → String → Node
  | .text s, _, _ => .text s
  | .elem t a st cs, k, v => .elem t (setAttrL a k v) st cs

/- Apply a pure attribute-list transformation to every element of a tree. -/
mutual
def mapAttrs (g : List (String × String) → List (String × String)) : Node → Node
  | .text s => .text s
  | .elem t a st cs => .elem t (g a) st (mapAttrsL g cs)

def mapAttrsL (g : List (String × String) → List (String × String)) : List Node → List Node
  | [] => []
  | c :: cs => mapAttrs g c :: mapAttrsL g cs
end

/-- ASCII lower-casing of one character, as `toLowerCase` acts on the
(ASCII) characters of a tag name. -/
def lowerChar (c : Char) : Char :=
  if 65 ≤ c.toNat ∧ c.toNat ≤ 90 then Char.ofNat (c.toNat + 32) else c

/-- `tagName.toLowerCase()` on an (ASCII) tag name. -/
def lowerStr (s : String) : String := ⟨s.data.map lowerChar⟩

/-- `appendChild`: add a child at the end of an element's child list. -/
def appendChild : Node → Node → Node
  | .text s, _ => .text s
  | .elem t a st cs, c => .elem t a st (cs ++ [c])

/-! ## Decimal rendering of the tagging counter

`attachEditorIds` builds identifiers with the template literal
`el-${counter++}`; a JavaScript number interpolates as its decimal
digit string.  `natDec` is that decimal rendering (fuel-structured so
that it evaluates by kernel reduction); `decodeDec` is its left inverse,
used to prove the rendering injective. -/

/-- Decimal digit character `0`..`9`. -/
def digitChar (d : Nat) : Char := Char.ofNat (48 + d)

/-- Fueled decimal digit-list rendering (most significant digit first). -/
def natDecAux : Nat → Nat → List Char
  | 0, _ => []
  | fuel + 1, n =>
    if n < 10 then [digitChar n] else natDecAux fuel (n / 10) ++ [digitChar (n % 10)]

/-- Decimal digit list of a natural number. -/
def natDecList (n : Nat) : List Char := natDecAux (n + 1) n

/-- Decimal string of a natural number, as interpolated by `${counter}`. -/
def natDec (n : Nat) : String := ⟨natDecList n⟩

/-- Read a decimal digit list back as a number. -/
def decodeDec (l : List Char) : Nat :=
  l.foldl (fun a c => a * 10 + (c.toNat - 48)) 0

/-- The identifier generated for counter value `c`: `el-${c}`. -/
def mkEditorId (c : Nat) : String := "el-" ++ natDec c

/-- `c :: c+1 :: ... :: c+k-1`, the counter values of one tagging run. -/
def natRange : Nat → Nat → List Nat
  | _, 0 => []
  | c, k + 1 => c :: natRange (c + 1) k

/-! ## The Document Tagger (`attachEditorIds`, iframeUtils.js lines 4-13)

The `TreeWalker` rooted at `doc.body` with `SHOW_ELEMENT` visits every
element strictly inside `body` in document (pre-)order; `nextNode` never
yields the root itself, so `body` is not tagged.  The counter starts
at 1 and is incremented exactly when an identifier is assigned. -/

/- One tagging step on a subtree: assign `el-${c}` to the root element if
it lacks `data-editor-id`, then recurse over the children in order,
threading the counter. -/
mutual
def tagNode (c : Nat) : Node → Nat × Node
  | .text s => (c, .text s)
  | .elem t a st cs =>
    let root := if (getAttrL a "data-editor-id").isSome
      then (c, a)
      else (c + 1, setAttrL a "data-editor-id" (mkEditorId c))
    let rest := tagNodes root.1 cs
    (rest.1, .elem t root.2 st rest.2)

def tagNodes (c : Nat) : List Node → Nat × List Node
  | [] => (c, [])
  | n :: ns =>
    let first := tagNode c n
    let rest := tagNodes first.1 ns
    (rest.1, first.2 :: rest.2)
end

/-- `attachEditorIds`: walk every element under the content root (`body`
itself excluded, as the tree walker never yields its root) and assign
`el-${counter++}` to each element lacking a `data-editor-id`, with the
counter starting at 1. -/
def attachEditorIds : Node → Node
  | .text s => .text s
  | .elem t a st cs => .elem t a st (tagNodes 1 cs).2

/- Every element of the subtree (root included) carries `data-editor-id`. -/
mutual
def allTagged : Node → Bool
  | .text _ => true
  | .elem _ a _ cs => (getAttrL a "data-editor-id").isSome && allTaggedL cs

def allTaggedL : List Node → Bool
  | [] => true
  | c :: cs => allTagged c && allTaggedL cs
end

/- No element of the subtree (root included) carries `data-editor-id`. -/
mutual
def noIds : Node → Bool
  | .text _ => true
  | .elem _ a _ cs => (getAttrL a "data-editor-id").isNone && noIdsL cs

def noIdsL : List Node → Bool
  | [] => true
  | c :: cs => noIds c && noIdsL cs
end

/- The `data-editor-id` values present in a subtree, in document order. -/
mutual
def idsOf : Node → List String
  | .text _ => []
  | .elem _ a _ cs =>
    (match getAttrL a "data-editor-id" with
      | some v => [v]
      | none => []) ++ idsOfL cs

def idsOfL : List Node → List String
  | [] => []
  | c :: cs => idsOf c ++ idsOfL cs
end

/- Number of elements in a subtree (root included). -/
mutual
def countElems : Node → Nat
  | .text _ => 0
  | .elem _ _ _ cs => 1 + countElemsL cs

def countElemsL : List Node → Nat
  | [] => 0
  | c :: cs => countElems c + countElemsL cs
end

/-! ## Selection bookkeeping inside the isolated context -/

/-- Click-handler clearing step
(`Array.from(document.querySelectorAll('[data-editor-id]')).forEach(e=>e.removeAttribute('data-selected'))`):
remove the `data-selected` marker from every element carrying
`data-editor-id`. -/
def clearSelTagged (n : Node) : Node :=
  mapAttrs (fun a =>
    if (getAttrL a "data-editor-id").isSome then removeAttrL a "data-selected" else a) n

/-- `clear-selection` branch
(`Array.from(document.querySelectorAll('[data-selected]')).forEach(e=>e.removeAttribute('data-selected'))`):
remove the `data-selected` marker from every element carrying it. -/
def clearSelAll (n : Node) : Node :=
  mapAttrs (fun a =>
    if (getAttrL a "data-selected").isSome then removeAttrL a "data-selected" else a) n

/- Number of elements of the subtree carrying the `data-selected` marker. -/
mutual
def selCount : Node → Nat
  | .text _ => 0
  | .elem _ a _ cs =>
    (if (getAttrL a "data-selected").isSome then 1 else 0) + selCountL cs

def selCountL : List Node → Nat
  | [] => 0
  | c :: cs => selCount c + selCountL cs
end

/-- The root of a node is an element carrying `data-editor-id` (text nodes
pass vacuously). -/
def rootTagged : Node → Bool
  | .text _ => true
  | .elem _ a _ _ => (getAttrL a "data-editor-id").isSome

/-- Contribution of a node's root to `selCount`: 1 when it carries the
`data-selected` marker. -/
def selBit (n : Node) : Nat :=
  if (getAttrL n.attrs "data-selected").isSome then 1 else 0

/- Every element of the subtree carrying the `data-selected` marker also
carries `data-editor-id` (so the click handler's clearing step reaches it). -/
mutual
def selSubTagged : Node → Bool
  | .text _ => true
  | .elem _ a _ cs =>
    (!(getAttrL a "data-selected").isSome || (getAttrL a "data-editor-id").isSome)
      && selSubTaggedL cs

def selSubTaggedL : List Node → Bool
  | [] => true
  | c :: cs => selSubTagged c && selSubTaggedL cs
end

/-! ## Serialization (`outerHTML`) -/

/-- Render an attribute list as ` k="v" ...`. -/
def serializeAttrs (a : List (String × String)) : String :=
  a.foldl (fun acc kv => acc ++ " " ++ kv.1 ++ "=\"" ++ kv.2 ++ "\"") ""

/-- Render inline style declarations as a `style` attribute (absent when
there are none). -/
def serializeStyles (st : List (String × String)) : String :=
  match st with
  | [] => ""
  | _ => " style=\"" ++ st.foldl (fun acc kv => acc ++ kv.1 ++ ": " ++ kv.2 ++ ";") "" ++ "\""

/- `outerHTML` of a node: tag, attributes, style attribute, children, closing tag. -/
mutual
def serializeNode : Node → String
  | .text s => s
  | .elem t a st cs =>
    "<" ++ t ++ serializeAttrs a ++ serializeStyles st ++ ">"
      ++ serializeNodes cs ++ "</" ++ t ++ ">"

def serializeNodes : List Node → String
  | [] => ""
  | c :: cs => serializeNode c ++ serializeNodes cs
end

/-! ## The cross-context message protocol -/

/-- Events posted from the isolated context to the host
(`post({type:'selection',...})`, `post({type:'content-changed',...})`,
`post({type:'iframe-ready',...})`).  A `selection` identifier is
`getAttribute('data-editor-id')`, which is null on an untagged element,
hence the `Option`. -/
inductive OutMsg where
  | selection (id : Option String) (tagName outer : String)
  | contentChanged (id : Option String) (outer : String)
  | iframeReady (html : String)

/-- Commands posted from the host into the isolated context. -/
inductive Cmd where
  | applyProps (id : String) (props : List (String × String))
  | clearSelection

/-! ## The Sandbox Runtime (injected script, iframeUtils.js lines 35-110) -/

/-- State of the isolated rendering context: the content root (`body`
subtree, where all tagging and interaction happens) and the location of
the text caret (the element whose contents the window selection spans). -/
structure RtState where
  body : Node
  caret : Option (List Nat)

/-- The injected click handler (iframeUtils.js lines 46-63), firing on the
element at path `p` (handlers exist on every element strictly inside
`body`, so the empty path has none): clear `data-selected` from every
tagged element, mark the clicked element `data-selected="true"`, and —
unless its tag is `img` — set `contentEditable="true"` on it and move
the caret into its contents; finally post a `selection` message carrying
its identifier, lower-cased tag name and `outerHTML`. -/
def clickAt (s : RtState) (p : List Nat) : Option (RtState × OutMsg) :=
  match p, getAt s.body p with
  | _ :: _, some (.elem t _ _ _) =>
    let b1 := clearSelTagged s.body
    let b2 := modifyAt (fun n => setRootAttr n "data-selected" "true") b1 p
    let b3 := if lowerStr t = "img" then b2
      else modifyAt (fun n => setRootAttr n "contentEditable" "true") b2 p
    let car := if lowerStr t = "img" then s.caret else some p
    match getAt b3 p with
    | some m =>
      some ({ body := b3, caret := car },
        .selection (m.getAttr "data-editor-id") (lowerStr m.tag) (serializeNode m))
    | none => none
  | _, _ => none

/- `document.querySelector('[data-editor-id="i"]')`: path of the first
element in document (pre-)order whose `data-editor-id` equals `i`. -/
mutual
def findFirst (i : String) : Node → Option (List Nat)
  | .text _ => none
  | .elem _ a _ cs =>
    if getAttrL a "data-editor-id" = some i then some [] else findFirstL i cs 0

def findFirstL (i : String) : List Node → Nat → Option (List Nat)
  | [], _ => none
  | c :: cs, j =>
    match findFirst i c with
    | some p => some (j :: p)
    | none => findFirstL i cs (j + 1)
end

/-- One entry of an `apply-props` patch, applied to an element
(iframeUtils.js lines 88-92): `innerHTML` replaces the children with the
parsed fragment (`pf` is the browser's fragment parser), `src` on an
`img` element sets the `src` attribute, and any other key is written
verbatim into the element's style declarations. -/
def applyEntry (pf : String → List Node) : Node → String × String → Node
  | .text s, _ => .text s
  | .elem t a st cs, (k, v) =>
    if k = "innerHTML" then .elem t a st (pf v)
    else if k = "src" ∧ lowerStr t = "img" then .elem t (setAttrL a "src" v) st cs
    else .elem t a (setAttrL st k v) cs

/-- The injected `message` listener (iframeUtils.js lines 82-99):
`apply-props` locates the element by identifier (returning silently when
none matches) and folds the patch entries over it in order;
`clear-selection` removes the marker from every element.  Neither branch
posts anything back to the host. -/
def handleCmd (pf : String → List Node) (s : RtState) : Cmd → RtState × List OutMsg
  | .applyProps i props =>
    match findFirst i s.body with
    | none => (s, [])
    | some p =>
      ({ s with body := modifyAt (fun n => props.foldl (applyEntry pf) n) s.body p }, [])
  | .clearSelection => ({ s with body := clearSelAll s.body }, [])

/-! ## The Host Controller (VisualHtmlEditor.jsx) -/

/-- Host-side selection state: `selectedId` and `selectionInfo` of
`VisualHtmlEditor` (`selectionInfo` stores the `selection` message's
identifier, tag and outer markup). -/
structure HostState where
  selectedId : Option String
  selectionInfo : Option (Option String × String × String)

/-- The host's `message` handler (VisualHtmlEditor.jsx lines 48-71): a
`selection` message stores its identifier and info; `content-changed`
and `iframe-ready` refresh the stored HTML source and leave the
selection state alone. -/
def hostHandleMsg (h : HostState) : OutMsg → HostState
  | .selection i t o => { selectedId := i, selectionInfo := some (i, t, o) }
  | .contentChanged _ _ => h
  | .iframeReady _ => h

/-- `applyPropsToSelected` (VisualHtmlEditor.jsx lines 103-114): with no
selected identifier it returns at once, sending nothing; otherwise it
posts one `apply-props` command for the selected identifier. -/
def applyPropsToSelected (h : HostState) (props : List (String × String)) :
    HostState × List Cmd :=
  match h.selectedId with
  | none => (h, [])
  | some i => (h, [Cmd.applyProps i props])

/-- `clearSelection` (VisualHtmlEditor.jsx lines 130-136): post a
`clear-selection` command and reset both pieces of selection state. -/
def hostClearSelection (_h : HostState) : HostState × List Cmd :=
  ({ selectedId := none, selectionInfo := none }, [Cmd.clearSelection])

/-! ## Combined system, and event sequences -/

/-- Host and isolated context together. -/
structure SysState where
  rt : RtState
  host : HostState

/-- A click inside the isolated context followed by the host handling the
posted `selection` message. -/
def sysClick (s : SysState) (p : List Nat) : Option SysState :=
  match clickAt s.rt p with
  | none => none
  | some (rt', msg) => some { rt := rt', host := hostHandleMsg s.host msg }

/-- A sequence of clicks, in order. -/
def sysClicks : SysState → List (List Nat) → Option SysState
  | s, [] => some s
  | s, p :: ps =>
    match sysClick s p with
    | none => none
    | some s' => sysClicks s' ps

/-- Interaction events inside the isolated context: clicks and
`clear-selection` commands. -/
inductive UiEvent where
  | click (p : List Nat)
  | clearSel

/-- One interaction event (the `clear-selection` branch is exactly
`handleCmd`'s, which posts nothing). -/
def rtStep (s : RtState) : UiEvent → Option RtState
  | .click p => (clickAt s p).map Prod.fst
  | .clearSel => some { s with body := clearSelAll s.body }

/-- A sequence of interaction events, in order. -/
def rtRun : RtState → List UiEvent → Option RtState
  | s, [] => some s
  | s, e :: evs =>
    match rtStep s e with
    | none => none
    | some s' => rtRun s' evs

/-! ## The Sandbox Bootstrapper (`buildIframeContents`, iframeUtils.js lines 16-113) -/

/-- Text of the injected style block (iframeUtils.js lines 25-28),
defining the highlight for the `data-selected` marker and the pointer
cursor for tagged elements. -/
def injectedStyleText : String := "
    [data-editor-id][data-selected=\"true\"]\x7boutline:3px solid #2563eb66; box-shadow:0 2px 8px rgba(37,99,235,0.12);\x7d 
    [data-editor-id]\x7bcursor: pointer;\x7d
  "

/-- Text of the injected behavior script (iframeUtils.js lines 35-110);
its semantics are embedded above as `clickAt`, `handleCmd` and the
posted messages. -/
def injectedScriptText : String := 
"
    (function()\x7b
      function post(msg)\x7b parent.postMessage(msg, \x27*\x27); \x7d
      // make elements selectable and optionally editable
      function makeInteractive()\x7b
        const walker = document.createTreeWalker(document.body, NodeFilter.SHOW_ELEMENT, null, false);
        while(walker.nextNode())\x7b
          const el = walker.currentNode;
          if(!el.hasAttribute(\x27data-editor-id\x27))\x7b
            el.setAttribute(\x27data-editor-id\x27, \x27el-\x27+Math.random().toString(36).slice(2,9));
          \x7d
          // avoid adding handlers to the html/body root repeatedly
          el.addEventListener(\x27click\x27, function(ev)\x7b
            ev.stopPropagation();
            // set selected attribute
            Array.from(document.querySelectorAll(\x27[data-editor-id]\x27)).forEach(e=>e.removeAttribute(\x27data-selected\x27));
            this.setAttribute(\x27data-selected\x27,\x27true\x27);
            // focus contentEditable for text-like elements
            const isImg = this.tagName.toLowerCase()===\x27img\x27;
            if(!isImg)\x7b
              this.setAttribute(\x27contentEditable\x27,\x27true\x27);
              // ensure caret placement
              const sel = window.getSelection();
              sel.removeAllRanges();
              const range = document.createRange();
              range.selectNodeContents(this);
              sel.addRange(range);
            \x7d
            post(\x7btype:\x27selection\x27, id:this.getAttribute(\x27data-editor-id\x27), tag:this.tagName.toLowerCase(), outerHTML:this.outerHTML\x7d);
          \x7d, false);

          // make images non-contentEditable but clickable
          if(el.tagName.toLowerCase()===\x27img\x27)\x7b
            el.setAttribute(\x27draggable\x27,\x27false\x27);
          \x7d
        \x7d
      \x7d

      // when content changes, notify parent
      document.addEventListener(\x27input\x27, function(ev)\x7b
        const target = ev.target;
        if(target && target.getAttribute && target.getAttribute(\x27data-editor-id\x27))\x7b
          post(\x7btype:\x27content-changed\x27, id: target.getAttribute(\x27data-editor-id\x27), outerHTML: target.outerHTML\x7d);
        \x7d
      \x7d, true);

      // listen to messages from parent
      window.addEventListener(\x27message\x27, function(e)\x7b
        const msg = e.data || \x7b\x7d;
        try\x7b
          if(msg.type === \x27apply-props\x27)\x7b
            const el = document.querySelector(\x27[data-editor-id=\"\x27+msg.id+\x27\"]\x27);
            if(!el) return;
            if(msg.props)\x7b
              Object.entries(msg.props).forEach(([k,v])=>\x7b
                if(k === \x27innerHTML\x27) el.innerHTML = v;
                else if(k === \x27src\x27 && el.tagName.toLowerCase()===\x27img\x27) el.src = v;
                else el.style[k] = v;
              \x7d);
            \x7d
          \x7d else if(msg.type === \x27clear-selection\x27)\x7b
            Array.from(document.querySelectorAll(\x27[data-selected]\x27)).forEach(e=>e.removeAttribute(\x27data-selected\x27));
          \x7d
        \x7dcatch(err)\x7b/* ignore */\x7d
      \x7d);

      // initial setup
      makeInteractive();
      // observe DOM additions to make them interactive too
      const obs = new MutationObserver(()=>\x7b makeInteractive(); \x7d);
      obs.observe(document.body, \x7bchildList:true, subtree:true\x7d);

      // inform parent that iframe is ready and send full HTML
      post(\x7btype:\x27iframe-ready\x27, html: document.documentElement.outerHTML\x7d);
    \x7d)();
  "

/-- The injected `<style>` element. -/
def styleElem : Node := .elem "style" [] [] [.text injectedStyleText]

/-- The injected `<script type="text/javascript">` element. -/
def scriptElem : Node := .elem "script" [("type", "text/javascript")] [] [.text injectedScriptText]

/-- A parsed `text/html` document.
`DOMParser.parseFromString(html, "text/html")` always yields a document
whose document element is an `html` element holding a `head` element and
a `body` element, for malformed input too (lenient parsing never
throws); the parse function is kept abstract and total over documents of
that shape. -/
structure HtmlDoc where
  htmlAttrs : List (String × String)
  headAttrs : List (String × String)
  headStyles : List (String × String)
  headChildren : List Node
  bodyAttrs : List (String × String)
  bodyStyles : List (String × String)
  bodyChildren : List Node

/-- The `head` element of a parsed document. -/
def HtmlDoc.headNode (d : HtmlDoc) : Node := .elem "head" d.headAttrs d.headStyles d.headChildren

/-- The `body` element of a parsed document. -/
def HtmlDoc.bodyNode (d : HtmlDoc) : Node := .elem "body" d.bodyAttrs d.bodyStyles d.bodyChildren

/-- `buildIframeContents` (iframeUtils.js lines 16-113): parse the HTML
text, run `attachEditorIds` over the document, append the style block to
`head`, append the behavior script to `body`, and serialize
`documentElement` behind a doctype declaration. -/
def buildIframeContents (parse : String → HtmlDoc) (html : String) : String :=
  let doc := parse html
  let taggedBody := attachEditorIds doc.bodyNode
  let newHead := appendChild doc.headNode styleElem
  let newBody := appendChild taggedBody scriptElem
  "<!doctype html>\n" ++ serializeNode (.elem "html" doc.htmlAttrs [] [newHead, newBody])

/-! ## Concrete instances used by witnesses and counterexamples -/

/-- Trivial fragment parser used to instantiate witnesses. -/
def pfNil : String → List Node := fun _ => []

/-- An untagged two-block body. -/
def exBody : Node :=
  .elem "body" [] []
    [.elem "div" [("class", "card")] [] [.text "Hello"],
     .elem "div" [] [] [.elem "img" [("src", "a.png")] [] [], .elem "p" [] [] [.text "b"]]]

/-- A body whose first element already carries the identifier `el-1`:
the tagging counter, starting afresh at 1, hands the same identifier to
the next untagged element. -/
def cexBody : Node :=
  .elem "body" [] []
    [.elem "div" [("data-editor-id", "el-1")] [] [], .elem "div" [] [] []]

/-- A tagged body with two identified blocks, the first containing a
styled child span. -/
def exTagged : Node :=
  .elem "body" [] []
    [.elem "div" [("data-editor-id", "el-1")] []
       [.elem "span" [("x", "1"), ("data-editor-id", "el-3")] [("color", "red")] []],
     .elem "p" [("data-editor-id", "el-2")] [("color", "blue")] [.text "t"]]

/-- A runtime state over `exTagged` with no caret. -/
def rtW : RtState := ⟨exTagged, none⟩

/-- A combined state: `exTagged` rendered, nothing selected on either side. -/
def sysW : SysState := ⟨⟨exTagged, none⟩, ⟨none, none⟩⟩

/-- A tagged body holding an image and a paragraph. -/
def exImgBody : Node :=
  .elem "body" [] []
    [.elem "img" [("data-editor-id", "el-1"), ("src", "a.png")] [] [],
     .elem "p" [("data-editor-id", "el-2")] [] [.text "t"]]

/-- A runtime state over `exImgBody` with no caret. -/
def rtImgW : RtState := ⟨exImgBody, none⟩

/-- A tagged body whose first block was already made editable by an
earlier click. -/
def exCEBody : Node :=
  .elem "body" [] []
    [.elem "div" [("data-editor-id", "el-1"), ("contentEditable", "true")] [] [],
     .elem "p" [("data-editor-id", "el-2")] [] [.text "t"]]

/-- A runtime state over `exCEBody` with no caret. -/
def rtCEW : RtState := ⟨exCEBody, none⟩

/-! # Theorems -/

/-! ## Attribute-list lemmas -/

theorem getAttrL_setAttrL_self (a : List (String × String)) (k v : String) :
    getAttrL (setAttrL a k v) k = some v := by
  induction a with
  | nil => simp [setAttrL, getAttrL]
  | cons kv rest ih =>
    by_cases h : kv.1 = k
    · simp [setAttrL, h, getAttrL]
    · simp [setAttrL, h, getAttrL, ih]

theorem getAttrL_setAttrL_ne (a : List (String × String)) (k v k' : String)
    (h : k' ≠ k) : getAttrL (setAttrL a k v) k' = getAttrL a k' := by
  induction a with
  | nil => simp [setAttrL, getAttrL, Ne.symm h]
  | cons kv rest ih =>
    by_cases hk : kv.1 = k
    · subst hk
      simp [setAttrL, getAttrL, Ne.symm h, h]
    · by_cases hk' : kv.1 = k'
      · simp [setAttrL, hk, getAttrL, hk', h]
      · simp [setAttrL, hk, getAttrL, hk', ih]

theorem getAttrL_removeAttrL_self (a : List (String × String)) (k : String) :
    getAttrL (removeAttrL a k) k = none := by
  induction a with
  | nil => simp [removeAttrL, getAttrL]
  | cons kv rest ih =>
    by_cases h : kv.1 = k
    · simp [removeAttrL, h, ih]
    · simp [removeAttrL, h, getAttrL, ih]

theorem getAttrL_removeAttrL_ne (a : List (String × String)) (k k' : String)
    (h : k' ≠ k) : getAttrL (removeAttrL a k) k' = getAttrL a k' := by
  induction a with
  | nil => simp [removeAttrL]
  | cons kv rest ih =>
    by_cases hk : kv.1 = k
    · subst hk
      simp [removeAttrL, getAttrL, Ne.symm h, ih]
    · by_cases hk' : kv.1 = k'
      · simp [removeAttrL, hk, getAttrL, hk', h]
      · simp [removeAttrL, hk, getAttrL, hk', ih]

/-! ## Injectivity of the generated identifiers -/

theorem natDecAux_congr : ∀ f g n, n < f → n < g → natDecAux f n = natDecAux g n := by
  intro f
  induction f with
  | zero => intro g n h; omega
  | succ f ih =>
    intro g n hf hg
    match g, hg with
    | g + 1, _ =>
      by_cases h10 : n < 10
      · simp [natDecAux, h10]
      · have hdiv : n / 10 < n := Nat.div_lt_self (by omega) (by omega)
        simp only [natDecAux, h10, if_false]
        rw [ih g (n / 10) (by omega) (by omega)]

theorem natDecList_eq (n : Nat) :
    natDecList n = if n < 10 then [digitChar n] else natDecList (n / 10) ++ [digitChar (n % 10)] := by
  by_cases h10 : n < 10
  · simp [natDecList, natDecAux, h10]
  · have hdiv : n / 10 < n := Nat.div_lt_self (by omega) (by omega)
    show natDecAux (n + 1) n = _
    rw [show natDecAux (n + 1) n = natDecAux n (n / 10) ++ [digitChar (n % 10)] from by
      simp [natDecAux, h10]]
    rw [natDecAux_congr n (n / 10 + 1) (n / 10) (by omega) (by omega)]
    simp [natDecList, h10]

theorem digitChar_toNat : ∀ d, d < 10 → (digitChar d).toNat = 48 + d := by decide

theorem decodeDec_natDecList : ∀ n, decodeDec (natDecList n) = n := by
  intro n
  induction n using Nat.strong_induction_on with
  | _ n ih =>
    rw [natDecList_eq]
    by_cases h10 : n < 10
    · simp [h10, decodeDec, List.foldl, digitChar_toNat n h10]
    · have hdiv : n / 10 < n := Nat.div_lt_self (by omega) (by omega)
      have hmod : n % 10 < 10 := Nat.mod_lt _ (by omega)
      simp only [h10, if_false, decodeDec, List.foldl_append, List.foldl]
      have := ih (n / 10) hdiv
      simp only [decodeDec] at this
      rw [this, digitChar_toNat _ hmod]
      omega

theorem natDec_injective {m n : Nat} (h : natDec m = natDec n) : m = n := by
  have hdata : natDecList m = natDecList n := congrArg String.data h
  have := congrArg decodeDec hdata
  rwa [decodeDec_natDecList, decodeDec_natDecList] at this

theorem mkEditorId_injective {m n : Nat} (h : mkEditorId m = mkEditorId n) : m = n := by
  apply natDec_injective
  have hdata := congrArg String.data h
  simp only [mkEditorId, String.data_append] at hdata
  exact String.ext (List.append_cancel_left hdata)

/-! ## Counter-range lemmas -/

theorem natRange_append (c k1 k2 : Nat) :
    natRange c (k1 + k2) = natRange c k1 ++ natRange (c + k1) k2 := by
  induction k1 generalizing c with
  | zero => simp [natRange]
  | succ k1 ih =>
    have : c + (k1 + 1) = (c + 1) + k1 := by omega
    simp only [natRange, Nat.succ_add, this, ih (c + 1)]
    simp [natRange]

theorem mem_natRange : ∀ k c x, x ∈ natRange c k ↔ c ≤ x ∧ x < c + k := by
  intro k
  induction k with
  | zero => simp [natRange]
  | succ k ih =>
    intro c x
    simp only [natRange, List.mem_cons, ih (c + 1)]
    omega

theorem nodup_natRange : ∀ k c, (natRange c k).Nodup := by
  intro k
  induction k with
  | zero => simp [natRange]
  | succ k ih =>
    intro c
    simp only [natRange, List.nodup_cons, ih (c + 1), and_true]
    rw [mem_natRange]
    omega

/-! ## Tagging lemmas -/

mutual
theorem tagNode_allTagged_eq (c : Nat) (n : Node) (h : allTagged n = true) :
    tagNode c n = (c, n) := by
  match n with
  | .text s => rfl
  | .elem t a st cs =>
    simp only [allTagged, Bool.and_eq_true] at h
    simp [tagNode, h.1, tagNodes_allTagged_eq c cs h.2]

theorem tagNodes_allTagged_eq (c : Nat) (ns : List Node) (h : allTaggedL ns = true) :
    tagNodes c ns = (c, ns) := by
  match ns with
  | [] => rfl
  | n :: rest =>
    simp only [allTaggedL, Bool.and_eq_true] at h
    simp [tagNodes, tagNode_allTagged_eq c n h.1, tagNodes_allTagged_eq c rest h.2]
end

mutual
theorem allTagged_tagNode (c : Nat) (n : Node) : allTagged (tagNode c n).2 = true := by
  match n with
  | .text s => rfl
  | .elem t a st cs =>
    by_cases hid : (getAttrL a "data-editor-id").isSome = true
    · simp [tagNode, hid, allTagged, allTaggedL_tagNodes]
    · simp [tagNode, hid, allTagged, allTaggedL_tagNodes, getAttrL_setAttrL_self]

theorem allTaggedL_tagNodes (c : Nat) (ns : List Node) : allTaggedL (tagNodes c ns).2 = true := by
  match ns with
  | [] => rfl
  | n :: rest =>
    simp [tagNodes, allTaggedL, allTagged_tagNode, allTaggedL_tagNodes]
end

mutual
theorem getAt_tagNode_pres (c : Nat) (n : Node) (p : List Nat) (m : Node)
    (h : getAt n p = some m) :
    ∃ m', getAt (tagNode c n).2 p = some m' ∧ m'.tag = m.tag ∧ m'.styles = m.styles ∧
      (m'.attrs = m.attrs ∨ (getAttrL m.attrs "data-editor-id" = none ∧
        ∃ c', m'.attrs = setAttrL m.attrs "data-editor-id" (mkEditorId c'))) := by
  match n, p with
  | .text s, [] =>
    have hm : m = .text s := by simpa [getAt] using h.symm
    subst hm
    exact ⟨.text s, rfl, rfl, rfl, Or.inl rfl⟩
  | .elem t a st cs, [] =>
    have hm : m = .elem t a st cs := by simpa [getAt] using h.symm
    subst hm
    by_cases hid : (getAttrL a "data-editor-id").isSome = true
    · refine ⟨.elem t a st (tagNodes c cs).2, ?_, rfl, rfl, Or.inl rfl⟩
      simp [tagNode, hid, getAt]
    · refine ⟨.elem t (setAttrL a "data-editor-id" (mkEditorId c)) st (tagNodes (c + 1) cs).2,
        ?_, rfl, rfl, Or.inr ⟨?_, c, rfl⟩⟩
      · simp [tagNode, hid, getAt]
      · show getAttrL a "data-editor-id" = none
        cases hg : getAttrL a "data-editor-id"
        · rfl
        · simp [hg] at hid
  | .text s, i :: p => simp [getAt] at h
  | .elem t a st cs, i :: p =>
    simp only [getAt] at h
    by_cases hid : (getAttrL a "data-editor-id").isSome = true
    · simpa [tagNode, hid, getAt] using getAtL_tagNodes_pres c cs i p m h
    · simpa [tagNode, hid, getAt] using getAtL_tagNodes_pres (c + 1) cs i p m h

theorem getAtL_tagNodes_pres (c : Nat) (ns : List Node) (i : Nat) (p : List Nat) (m : Node)
    (h : getAtL ns i p = some m) :
    ∃ m', getAtL (tagNodes c ns).2 i p = some m' ∧ m'.tag = m.tag ∧ m'.styles = m.styles ∧
      (m'.attrs = m.attrs ∨ (getAttrL m.attrs "data-editor-id" = none ∧
        ∃ c', m'.attrs = setAttrL m.attrs "data-editor-id" (mkEditorId c'))) := by
  match ns, i with
  | [], _ => simp [getAtL] at h
  | n :: rest, 0 =>
    simp only [getAtL] at h
    simpa [tagNodes, getAtL] using getAt_tagNode_pres c n p m h
  | n :: rest, i + 1 =>
    simp only [getAtL] at h
    simpa [tagNodes, getAtL] using getAtL_tagNodes_pres (tagNode c n).1 rest i p m h
end

mutual
theorem tagNode_noIds (c : Nat) (n : Node) (h : noIds n = true) :
    (tagNode c n).1 = c + countElems n ∧
      idsOf (tagNode c n).2 = (natRange c (countElems n)).map mkEditorId := by
  match n with
  | .text s => simp [tagNode, countElems, idsOf, natRange]
  | .elem t a st cs =>
    simp only [noIds, Bool.and_eq_true, Option.isNone_iff_eq_none] at h
    have hrec := tagNodes_noIds (c + 1) cs h.2
    constructor
    · simp only [tagNode, h.1, Option.isSome_none, Bool.false_eq_true, if_false]
      rw [hrec.1]
      simp [countElems]
      omega
    · simp only [tagNode, h.1, Option.isSome_none, Bool.false_eq_true, if_false, idsOf,
        countElems, getAttrL_setAttrL_self, hrec.2]
      rw [Nat.add_comm 1 (countElemsL cs)]
      simp [natRange]

theorem tagNodes_noIds (c : Nat) (ns : List Node) (h : noIdsL ns = true) :
    (tagNodes c ns).1 = c + countElemsL ns ∧
      idsOfL (tagNodes c ns).2 = (natRange c (countElemsL ns)).map mkEditorId := by
  match ns with
  | [] => simp [tagNodes, countElemsL, idsOfL, natRange]
  | n :: rest =>
    simp only [noIdsL, Bool.and_eq_true] at h
    have h1 := tagNode_noIds c n h.1
    have h2 := tagNodes_noIds (c + countElems n) rest h.2
    constructor
    · simp only [tagNodes, countElemsL]
      rw [h1.1, h2.1]
      omega
    · simp only [tagNodes, countElemsL, idsOfL, h1.2]
      rw [h1.1, h2.2, natRange_append, List.map_append]
end

theorem attachEditorIds_allTagged (b : Node) :
    allTaggedL (attachEditorIds b).children = true := by
  match b with
  | .text s => rfl
  | .elem t a st cs => simpa [attachEditorIds, Node.children] using allTaggedL_tagNodes 1 cs

theorem attachEditorIds_pres (b : Node) (p : List Nat) (m : Node)
    (h : getAt b p = some m) :
    ∃ m', getAt (attachEditorIds b) p = some m' ∧ m'.tag = m.tag ∧ m'.styles = m.styles ∧
      (m'.attrs = m.attrs ∨ (getAttrL m.attrs "data-editor-id" = none ∧
        ∃ c', m'.attrs = setAttrL m.attrs "data-editor-id" (mkEditorId c'))) := by
  match b, p with
  | .text s, [] =>
    have hm : m = .text s := by simpa [getAt] using h.symm
    subst hm
    exact ⟨.text s, rfl, rfl, rfl, Or.inl rfl⟩
  | .text s, i :: p => simp [getAt] at h
  | .elem t a st cs, [] =>
    have hm : m = .elem t a st cs := by simpa [getAt] using h.symm
    subst hm
    exact ⟨.elem t a st (tagNodes 1 cs).2, rfl, rfl, rfl, Or.inl rfl⟩
  | .elem t a st cs, i :: p =>
    simp only [getAt] at h
    simpa [attachEditorIds, getAt] using getAtL_tagNodes_pres 1 cs i p m h

theorem attachEditorIds_idem (b : Node) :
    attachEditorIds (attachEditorIds b) = attachEditorIds b := by
  match b with
  | .text s => rfl
  | .elem t a st cs =>
    simp [attachEditorIds, tagNodes_allTagged_eq 1 (tagNodes 1 cs).2 (allTaggedL_tagNodes 1 cs)]

/-- C1: the Document Tagger is idempotent: re-running `attachEditorIds` on
an already-tagged tree is the identity — every element keeps exactly the
identifier it had after the first run — and no run ever overwrites an
element's pre-existing `data-editor-id`: any element that carried the
identifier `x` before a run still carries exactly `x` after it. -/
theorem c1_tagger_idempotent (b : Node) :
    attachEditorIds (attachEditorIds b) = attachEditorIds b ∧
    (∀ p m x, getAt b p = some m → m.getAttr "data-editor-id" = some x →
      ∃ m', getAt (attachEditorIds b) p = some m' ∧ m'.getAttr "data-editor-id" = some x) := by
  refine ⟨attachEditorIds_idem b, ?_⟩
  intro p m x hget hid
  obtain ⟨m', hm', _, _, hattrs⟩ := attachEditorIds_pres b p m hget
  refine ⟨m', hm', ?_⟩
  rcases hattrs with heq | ⟨hnone, _, _⟩
  · rwa [Node.getAttr, heq]
  · rw [Node.getAttr] at hid
    rw [hnone] at hid
    exact absurd hid (by simp)

/-- Witness for C1 at a concrete tagged tree and a concrete pre-identified
element. -/
theorem c1_witness :
    attachEditorIds (attachEditorIds exTagged) = attachEditorIds exTagged ∧
    (∃ m', getAt (attachEditorIds exTagged) [1] = some m' ∧
      m'.getAttr "data-editor-id" = some "el-2") :=
  ⟨(c1_tagger_idempotent exTagged).1,
   (c1_tagger_idempotent exTagged).2 [1]
     (.elem "p" [("data-editor-id", "el-2")] [("color", "blue")] [.text "t"]) "el-2" rfl rfl⟩

/-- C2 fails as stated: on a body whose first element already carries the
identifier `el-1`, the tagging counter (restarting at 1) assigns `el-1`
to the next untagged element as well, so the identifiers are not
pairwise distinct even though every element ends up tagged. -/
theorem c2_counterexample :
    allTaggedL (attachEditorIds cexBody).children = true ∧
    idsOfL (attachEditorIds cexBody).children = ["el-1", "el-1"] ∧
    ¬ (idsOfL (attachEditorIds cexBody).children).Nodup := by
  refine ⟨rfl, rfl, ?_⟩
  rw [show idsOfL (attachEditorIds cexBody).children = ["el-1", "el-1"] from rfl]
  decide

/-- C2 (amended): after `attachEditorIds` runs, every element under the
content root carries an identifier attribute; the identifier values are
pairwise distinct within the document whenever the input tree contained
no identifier attribute before tagging (a pre-existing identifier of the
shape `el-k` can collide with a freshly generated one, see the
counterexample). -/
theorem c2_all_tagged_unique (b : Node) :
    allTaggedL (attachEditorIds b).children = true ∧
    (noIdsL b.children = true → (idsOfL (attachEditorIds b).children).Nodup) := by
  refine ⟨attachEditorIds_allTagged b, ?_⟩
  intro hno
  match b with
  | .text s => simp [attachEditorIds, Node.children, idsOfL]
  | .elem t a st cs =>
    simp only [Node.children] at hno
    have := (tagNodes_noIds 1 cs hno).2
    simp only [attachEditorIds, Node.children, this]
    exact (nodup_natRange _ 1).map (fun x y hxy => mkEditorId_injective hxy)

/-- Witness for C2 (amended) on a concrete identifier-free body. -/
theorem c2_witness :
    allTaggedL (attachEditorIds exBody).children = true ∧
    (idsOfL (attachEditorIds exBody).children).Nodup :=
  ⟨(c2_all_tagged_unique exBody).1, (c2_all_tagged_unique exBody).2 rfl⟩

/-! ## Path lemmas -/

theorem sameShell_refl (m : Node) : sameShell m m := ⟨rfl, rfl, rfl⟩

theorem pathBelow_cons (i : Nat) (p q : List Nat) :
    PathBelow (i :: p) (i :: q) ↔ PathBelow p q := by
  constructor
  · rintro ⟨r, hr⟩
    exact ⟨r, by simpa using hr⟩
  · rintro ⟨r, hr⟩
    exact ⟨r, by simp [hr]⟩

mutual
theorem getAt_append (b : Node) (p q : List Nat) :
    getAt b (p ++ q) = (getAt b p).bind (fun n => getAt n q) := by
  match b, p with
  | b, [] => simp [getAt]
  | .text s, i :: p => simp [getAt]
  | .elem t a st cs, i :: p =>
    simpa [getAt] using getAtL_append cs i p q

theorem getAtL_append (cs : List Node) (i : Nat) (p q : List Nat) :
    getAtL cs i (p ++ q) = (getAtL cs i p).bind (fun n => getAt n q) := by
  match cs, i with
  | [], _ => simp [getAtL]
  | c :: cs, 0 => simpa [getAtL] using getAt_append c p q
  | c :: cs, i + 1 => simpa [getAtL] using getAtL_append cs i p q
end

mutual
theorem getAt_modifyAt_below (f : Node → Node) (b : Node) (p q : List Nat) (n : Node)
    (h : getAt b p = some n) :
    getAt (modifyAt f b p) (p ++ q) = getAt (f n) q := by
  match b, p with
  | b, [] =>
    have hn : n = b := by simpa [getAt] using h.symm
    subst hn
    simp [modifyAt, getAt]
  | .text s, i :: p => simp [getAt] at h
  | .elem t a st cs, i :: p =>
    simp only [getAt] at h
    simpa [modifyAt, getAt] using getAtL_modifyAtL_below f cs i p q n h

theorem getAtL_modifyAtL_below (f : Node → Node) (cs : List Node) (i : Nat) (p q : List Nat)
    (n : Node) (h : getAtL cs i p = some n) :
    getAtL (modifyAtL f cs i p) i (p ++ q) = getAt (f n) q := by
  match cs, i with
  | [], _ => simp [getAtL] at h
  | c :: cs, 0 =>
    simp only [getAtL] at h
    simpa [modifyAtL, getAtL] using getAt_modifyAt_below f c p q n h
  | c :: cs, i + 1 =>
    simp only [getAtL] at h
    simpa [modifyAtL, getAtL] using getAtL_modifyAtL_below f cs i p q n h
end

theorem getAt_modifyAt_self (f : Node → Node) (b : Node) (p : List Nat) (n : Node)
    (h : getAt b p = some n) : getAt (modifyAt f b p) p = some (f n) := by
  have := getAt_modifyAt_below f b p [] n h
  simpa [getAt] using this

mutual
theorem getAt_modifyAt_shell (f : Node → Node) (b : Node) (p q : List Nat) (m : Node)
    (hnb : ¬ PathBelow p q) (h : getAt b q = some m) :
    ∃ m', getAt (modifyAt f b p) q = some m' ∧ sameShell m' m ∧
      (¬ PathBelow q p → m' = m) := by
  match b, p, q with
  | b, [], q => exact absurd ⟨q, rfl⟩ hnb
  | .text s, i :: p, [] =>
    have hm : m = .text s := by simpa [getAt] using h.symm
    subst hm
    exact ⟨.text s, by simp [modifyAt, getAt], sameShell_refl _, fun _ => rfl⟩
  | .elem t a st cs, i :: p, [] =>
    have hm : m = .elem t a st cs := by simpa [getAt] using h.symm
    subst hm
    refine ⟨.elem t a st (modifyAtL f cs i p), by simp [modifyAt, getAt], ⟨rfl, rfl, rfl⟩, ?_⟩
    intro hq
    exact absurd ⟨i :: p, rfl⟩ hq
  | .text s, i :: p, j :: q => simp [getAt] at h
  | .elem t a st cs, i :: p, j :: q =>
    simp only [getAt] at h
    have hcond : i = j → ¬ PathBelow p q := by
      intro hij hb
      subst hij
      exact hnb ((pathBelow_cons i p q).2 hb)
    obtain ⟨m', hm', hsh, heq⟩ := getAtL_modifyAtL_shell f cs i j p q m hcond h
    refine ⟨m', by simpa [modifyAt, getAt] using hm', hsh, ?_⟩
    intro hq
    apply heq
    intro hij hb
    subst hij
    exact hq ((pathBelow_cons i q p).2 hb)

theorem getAtL_modifyAtL_shell (f : Node → Node) (cs : List Node) (i j : Nat)
    (p q : List Nat) (m : Node) (hcond : i = j → ¬ PathBelow p q)
    (h : getAtL cs j q = some m) :
    ∃ m', getAtL (modifyAtL f cs i p) j q = some m' ∧ sameShell m' m ∧
      ((i = j → ¬ PathBelow q p) → m' = m) := by
  match cs, i, j with
  | [], _, _ => simp [getAtL] at h
  | c :: cs, 0, 0 =>
    simp only [getAtL] at h
    obtain ⟨m', hm', hsh, heq⟩ :=
      getAt_modifyAt_shell f c p q m (hcond rfl) h
    exact ⟨m', by simpa [modifyAtL, getAtL] using hm', hsh,
      fun hq => heq (hq rfl)⟩
  | c :: cs, 0, j + 1 =>
    exact ⟨m, by simpa [modifyAtL, getAtL] using h, sameShell_refl _, fun _ => rfl⟩
  | c :: cs, i + 1, 0 =>
    exact ⟨m, by simpa [modifyAtL, getAtL] using h, sameShell_refl _, fun _ => rfl⟩
  | c :: cs, i + 1, j + 1 =>
    simp only [getAtL] at h
    have hcond' : i = j → ¬ PathBelow p q := fun hij => hcond (by omega)
    obtain ⟨m', hm', hsh, heq⟩ := getAtL_modifyAtL_shell f cs i j p q m hcond' h
    exact ⟨m', by simpa [modifyAtL, getAtL] using hm', hsh,
      fun hq => heq (fun hij => hq (by omega))⟩
end

mutual
theorem getAt_mapAttrs (g : List (String × String) → List (String × String))
    (b : Node) (q : List Nat) :
    getAt (mapAttrs g b) q = (getAt b q).map (mapAttrs g) := by
  match b, q with
  | b, [] => cases b <;> simp [mapAttrs, getAt]
  | .text s, i :: q => simp [mapAttrs, getAt]
  | .elem t a st cs, i :: q =>
    simpa [mapAttrs, getAt] using getAtL_mapAttrsL g cs i q

theorem getAtL_mapAttrsL (g : List (String × String) → List (String × String))
    (cs : List Node) (i : Nat) (q : List Nat) :
    getAtL (mapAttrsL g cs) i q = (getAtL cs i q).map (mapAttrs g) := by
  match cs, i with
  | [], _ => simp [mapAttrsL, getAtL]
  | c :: cs, 0 => simpa [mapAttrsL, getAtL] using getAt_mapAttrs g c q
  | c :: cs, i + 1 => simpa [mapAttrsL, getAtL] using getAtL_mapAttrsL g cs i q
end

/-! ## Selection-count lemmas -/

mutual
theorem selCount_zero_selBit (n : Node) (h : selCount n = 0) (q : List Nat) (m : Node)
    (hm : getAt n q = some m) : selBit m = 0 := by
  match n, q with
  | .text s, [] =>
    have : m = .text s := by simpa [getAt] using hm.symm
    subst this
    simp [selBit, Node.attrs, getAttrL]
  | .elem t a st cs, [] =>
    have : m = .elem t a st cs := by simpa [getAt] using hm.symm
    subst this
    simp only [selCount] at h
    simp only [selBit, Node.attrs]
    omega
  | .text s, i :: q => simp [getAt] at hm
  | .elem t a st cs, i :: q =>
    simp only [getAt] at hm
    simp only [selCount] at h
    exact selCountL_zero_selBit cs (by omega) i q m hm

theorem selCountL_zero_selBit (cs : List Node) (h : selCountL cs = 0) (i : Nat) (q : List Nat)
    (m : Node) (hm : getAtL cs i q = some m) : selBit m = 0 := by
  match cs, i with
  | [], _ => simp [getAtL] at hm
  | c :: cs, 0 =>
    simp only [getAtL] at hm
    simp only [selCountL] at h
    exact selCount_zero_selBit c (by omega) q m hm
  | c :: cs, i + 1 =>
    simp only [getAtL] at hm
    simp only [selCountL] at h
    exact selCountL_zero_selBit cs (by omega) i q m hm
end

mutual
theorem selCount_clearSelTagged (n : Node) (h : selSubTagged n = true) :
    selCount (clearSelTagged n) = 0 := by
  match n with
  | .text s => rfl
  | .elem t a st cs =>
    simp only [selSubTagged, Bool.and_eq_true] at h
    have hcs := selCountL_clearSelTagged cs h.2
    simp only [clearSelTagged, mapAttrs, selCount] at hcs ⊢
    rw [hcs]
    by_cases hid : (getAttrL a "data-editor-id").isSome = true
    · simp [hid, getAttrL_removeAttrL_self]
    · have h1 := h.1
      cases hds : (getAttrL a "data-selected").isSome with
      | false => simp [hid, hds]
      | true =>
        rw [hds] at h1
        simp only [Bool.not_true, Bool.false_or] at h1
        exact absurd h1 hid

theorem selCountL_clearSelTagged (cs : List Node) (h : selSubTaggedL cs = true) :
    selCountL (mapAttrsL (fun a =>
      if (getAttrL a "data-editor-id").isSome then removeAttrL a "data-selected" else a) cs) = 0 := by
  match cs with
  | [] => rfl
  | c :: cs =>
    simp only [selSubTaggedL, Bool.and_eq_true] at h
    have h1 := selCount_clearSelTagged c h.1
    have h2 := selCountL_clearSelTagged cs h.2
    simp only [clearSelTagged] at h1
    simp only [mapAttrsL, selCountL, h1, h2]
end

mutual
theorem selCount_clearSelAll (n : Node) : selCount (clearSelAll n) = 0 := by
  match n with
  | .text s => rfl
  | .elem t a st cs =>
    have hcs := selCountL_clearSelAll cs
    simp only [clearSelAll, mapAttrs, selCount] at hcs ⊢
    rw [hcs]
    by_cases hds : (getAttrL a "data-selected").isSome = true
    · simp [hds, getAttrL_removeAttrL_self]
    · simp only [Bool.not_eq_true] at hds
      simp [hds]

theorem selCountL_clearSelAll (cs : List Node) :
    selCountL (mapAttrsL (fun a =>
      if (getAttrL a "data-selected").isSome then removeAttrL a "data-selected" else a) cs) = 0 := by
  match cs with
  | [] => rfl
  | c :: cs =>
    have h1 := selCount_clearSelAll c
    have h2 := selCountL_clearSelAll cs
    simp only [clearSelAll] at h1
    simp only [mapAttrsL, selCountL, h1, h2]
end

mutual
theorem selCount_zero_selSub (n : Node) (h : selCount n = 0) : selSubTagged n = true := by
  match n with
  | .text s => rfl
  | .elem t a st cs =>
    simp only [selCount] at h
    have hbit : (if (getAttrL a "data-selected").isSome then 1 else 0) = 0 := by omega
    have hcs : selSubTaggedL cs = true := selCountL_zero_selSub cs (by omega)
    simp only [selSubTagged, Bool.and_eq_true, hcs, and_true]
    by_cases hds : (getAttrL a "data-selected").isSome = true
    · simp [hds] at hbit
    · simp [hds]

theorem selCountL_zero_selSub (cs : List Node) (h : selCountL cs = 0) :
    selSubTaggedL cs = true := by
  match cs with
  | [] => rfl
  | c :: cs =>
    simp only [selCountL] at h
    simp only [selSubTaggedL, Bool.and_eq_true]
    exact ⟨selCount_zero_selSub c (by omega), selCountL_zero_selSub cs (by omega)⟩
end

mutual
theorem selCount_modifyAt_setRoot (k v : String) (b : Node) (p : List Nat) (m : Node)
    (h : getAt b p = some m) :
    selCount (modifyAt (fun n => setRootAttr n k v) b p) + selBit m
      = selCount b + selBit (setRootAttr m k v) := by
  match b, p with
  | .text s, [] =>
    have : m = .text s := by simpa [getAt] using h.symm
    subst this
    rfl
  | .elem t a st cs, [] =>
    have : m = .elem t a st cs := by simpa [getAt] using h.symm
    subst this
    simp only [modifyAt, setRootAttr, selCount, selBit, Node.attrs]
    omega
  | .text s, i :: p => simp [getAt] at h
  | .elem t a st cs, i :: p =>
    simp only [getAt] at h
    have := selCountL_modifyAtL_setRoot k v cs i p m h
    simp only [modifyAt, selCount]
    omega

theorem selCountL_modifyAtL_setRoot (k v : String) (cs : List Node) (i : Nat) (p : List Nat)
    (m : Node) (h : getAtL cs i p = some m) :
    selCountL (modifyAtL (fun n => setRootAttr n k v) cs i p) + selBit m
      = selCountL cs + selBit (setRootAttr m k v) := by
  match cs, i with
  | [], _ => simp [getAtL] at h
  | c :: cs, 0 =>
    simp only [getAtL] at h
    have := selCount_modifyAt_setRoot k v c p m h
    simp only [modifyAtL, selCountL]
    omega
  | c :: cs, i + 1 =>
    simp only [getAtL] at h
    have := selCountL_modifyAtL_setRoot k v cs i p m h
    simp only [modifyAtL, selCountL]
    omega
end

/-! ## Taggedness bridges and preservation -/

mutual
theorem allTagged_getAt (n : Node) (h : allTagged n = true) (q : List Nat) (m : Node)
    (hm : getAt n q = some m) : rootTagged m = true := by
  match n, q with
  | .text s, [] =>
    have : m = .text s := by simpa [getAt] using hm.symm
    subst this
    rfl
  | .elem t a st cs, [] =>
    have : m = .elem t a st cs := by simpa [getAt] using hm.symm
    subst this
    simp only [allTagged, Bool.and_eq_true] at h
    simpa [rootTagged] using h.1
  | .text s, i :: q => simp [getAt] at hm
  | .elem t a st cs, i :: q =>
    simp only [getAt] at hm
    simp only [allTagged, Bool.and_eq_true] at h
    exact allTaggedL_getAtL cs h.2 i q m hm

theorem allTaggedL_getAtL (cs : List Node) (h : allTaggedL cs = true) (i : Nat) (q : List Nat)
    (m : Node) (hm : getAtL cs i q = some m) : rootTagged m = true := by
  match cs, i with
  | [], _ => simp [getAtL] at hm
  | c :: cs, 0 =>
    simp only [getAtL] at hm
    simp only [allTaggedL, Bool.and_eq_true] at h
    exact allTagged_getAt c h.1 q m hm
  | c :: cs, i + 1 =>
    simp only [getAtL] at hm
    simp only [allTaggedL, Bool.and_eq_true] at h
    exact allTaggedL_getAtL cs h.2 i q m hm
end

mutual
theorem allTagged_mapAttrs (g : List (String × String) → List (String × String))
    (hg : ∀ a, getAttrL (g a) "data-editor-id" = getAttrL a "data-editor-id") (n : Node) :
    allTagged (mapAttrs g n) = allTagged n := by
  match n with
  | .text s => rfl
  | .elem t a st cs =>
    simp [mapAttrs, allTagged, hg a, allTaggedL_mapAttrsL g hg cs]

theorem allTaggedL_mapAttrsL (g : List (String × String) → List (String × String))
    (hg : ∀ a, getAttrL (g a) "data-editor-id" = getAttrL a "data-editor-id") (cs : List Node) :
    allTaggedL (mapAttrsL g cs) = allTaggedL cs := by
  match cs with
  | [] => rfl
  | c :: cs =>
    simp [mapAttrsL, allTaggedL, allTagged_mapAttrs g hg c, allTaggedL_mapAttrsL g hg cs]
end

mutual
theorem allTagged_modifyAt_setRoot (k v : String) (hk : k ≠ "data-editor-id")
    (b : Node) (p : List Nat) :
    allTagged (modifyAt (fun n => setRootAttr n k v) b p) = allTagged b := by
  match b, p with
  | .text s, [] => rfl
  | .elem t a st cs, [] =>
    simp [modifyAt, setRootAttr, allTagged,
      getAttrL_setAttrL_ne a k v "data-editor-id" (Ne.symm hk)]
  | .text s, i :: p => rfl
  | .elem t a st cs, i :: p =>
    simp [modifyAt, allTagged, allTaggedL_modifyAtL_setRoot k v hk cs i p]

theorem allTaggedL_modifyAtL_setRoot (k v : String) (hk : k ≠ "data-editor-id")
    (cs : List Node) (i : Nat) (p : List Nat) :
    allTaggedL (modifyAtL (fun n => setRootAttr n k v) cs i p) = allTaggedL cs := by
  match cs, i with
  | [], _ => rfl
  | c :: cs, 0 =>
    simp [modifyAtL, allTaggedL, allTagged_modifyAt_setRoot k v hk c p]
  | c :: cs, i + 1 =>
    simp [modifyAtL, allTaggedL, allTaggedL_modifyAtL_setRoot k v hk cs i p]
end

theorem gTagged_id (a : List (String × String)) :
    getAttrL (if (getAttrL a "data-editor-id").isSome
      then removeAttrL a "data-selected" else a) "data-editor-id"
    = getAttrL a "data-editor-id" := by
  by_cases hid : (getAttrL a "data-editor-id").isSome = true
  · simp [hid, getAttrL_removeAttrL_ne a "data-selected" "data-editor-id" (by decide)]
  · simp [hid]

theorem gAll_id (a : List (String × String)) :
    getAttrL (if (getAttrL a "data-selected").isSome
      then removeAttrL a "data-selected" else a) "data-editor-id"
    = getAttrL a "data-editor-id" := by
  by_cases hds : (getAttrL a "data-selected").isSome = true
  · simp [hds, getAttrL_removeAttrL_ne a "data-selected" "data-editor-id" (by decide)]
  · simp [hds]

mutual
theorem selSubTagged_modifyAt_setRoot (k v : String) (b : Node) (p : List Nat) (m : Node)
    (hb : selSubTagged b = true) (hm : getAt b p = some m)
    (hf : (getAttrL (setAttrL m.attrs k v) "data-selected").isSome = true →
      (getAttrL (setAttrL m.attrs k v) "data-editor-id").isSome = true) :
    selSubTagged (modifyAt (fun n => setRootAttr n k v) b p) = true := by
  match b, p with
  | .text s, [] => rfl
  | .elem t a st cs, [] =>
    have : m = .elem t a st cs := by simpa [getAt] using hm.symm
    subst this
    simp only [selSubTagged, Bool.and_eq_true] at hb
    simp only [Node.attrs] at hf
    simp only [modifyAt, setRootAttr, selSubTagged, Bool.and_eq_true, hb.2, and_true,
      Bool.or_eq_true, Bool.not_eq_true']
    by_cases hsel : (getAttrL (setAttrL a k v) "data-selected").isSome = true
    · exact Or.inr (hf hsel)
    · exact Or.inl (by simpa using hsel)
  | .text s, i :: p => rfl
  | .elem t a st cs, i :: p =>
    simp only [getAt] at hm
    simp only [selSubTagged, Bool.and_eq_true] at hb
    simp only [modifyAt, selSubTagged, Bool.and_eq_true]
    exact ⟨hb.1, selSubTaggedL_modifyAtL_setRoot k v cs i p m hb.2 hm hf⟩

theorem selSubTaggedL_modifyAtL_setRoot (k v : String) (cs : List Node) (i : Nat)
    (p : List Nat) (m : Node) (hb : selSubTaggedL cs = true) (hm : getAtL cs i p = some m)
    (hf : (getAttrL (setAttrL m.attrs k v) "data-selected").isSome = true →
      (getAttrL (setAttrL m.attrs k v) "data-editor-id").isSome = true) :
    selSubTaggedL (modifyAtL (fun n => setRootAttr n k v) cs i p) = true := by
  match cs, i with
  | [], _ => rfl
  | c :: cs, 0 =>
    simp only [getAtL] at hm
    simp only [selSubTaggedL, Bool.and_eq_true] at hb
    simp only [modifyAtL, selSubTaggedL, Bool.and_eq_true]
    exact ⟨selSubTagged_modifyAt_setRoot k v c p m hb.1 hm hf, hb.2⟩
  | c :: cs, i + 1 =>
    simp only [getAtL] at hm
    simp only [selSubTaggedL, Bool.and_eq_true] at hb
    simp only [modifyAtL, selSubTaggedL, Bool.and_eq_true]
    exact ⟨hb.1, selSubTaggedL_modifyAtL_setRoot k v cs i p m hb.2 hm hf⟩
end

/-! ## Click-handler characterization -/

theorem clickAt_char (s : RtState) (p : List Nat) (r : RtState × OutMsg)
    (h : clickAt s p = some r) :
    ∃ t a st cs m, getAt s.body p = some (.elem t a st cs) ∧
      m = (if lowerStr t = "img"
        then setRootAttr (clearSelTagged (.elem t a st cs)) "data-selected" "true"
        else setRootAttr (setRootAttr (clearSelTagged (.elem t a st cs))
          "data-selected" "true") "contentEditable" "true") ∧
      r.1.body = (if lowerStr t = "img"
        then modifyAt (fun n => setRootAttr n "data-selected" "true") (clearSelTagged s.body) p
        else modifyAt (fun n => setRootAttr n "contentEditable" "true")
          (modifyAt (fun n => setRootAttr n "data-selected" "true") (clearSelTagged s.body) p) p) ∧
      getAt r.1.body p = some m ∧
      r.1.caret = (if lowerStr t = "img" then s.caret else some p) ∧
      r.2 = .selection (m.getAttr "data-editor-id") (lowerStr m.tag) (serializeNode m) := by
  rcases p with _ | ⟨i, p₀⟩
  · simp [clickAt] at h
  · rcases hget : getAt s.body (i :: p₀) with _ | m₀
    · rw [clickAt.eq_def] at h
      rw [hget] at h
      simp at h
    · rcases m₀ with s₀ | ⟨t, a, st, cs⟩
      · rw [clickAt.eq_def] at h
        rw [hget] at h
        simp at h
      · refine ⟨t, a, st, cs, ?_⟩
        rw [clickAt.eq_def] at h
        rw [hget] at h
        have hget1 : getAt (clearSelTagged s.body) (i :: p₀)
            = some (clearSelTagged (.elem t a st cs)) := by
          simp only [clearSelTagged]
          rw [getAt_mapAttrs, hget]
          rfl
        have hget2 : getAt (modifyAt (fun n => setRootAttr n "data-selected" "true")
              (clearSelTagged s.body) (i :: p₀)) (i :: p₀)
            = some (setRootAttr (clearSelTagged (.elem t a st cs)) "data-selected" "true") :=
          getAt_modifyAt_self _ _ _ _ hget1
        by_cases himg : lowerStr t = "img"
        · simp only [himg, if_true, reduceIte] at h ⊢
          rw [hget2] at h
          simp only [Option.some.injEq] at h
          subst h
          exact ⟨_, trivial, rfl, rfl, hget2, rfl, rfl⟩
        · have hget3 : getAt (modifyAt (fun n => setRootAttr n "contentEditable" "true")
                (modifyAt (fun n => setRootAttr n "data-selected" "true")
                  (clearSelTagged s.body) (i :: p₀)) (i :: p₀)) (i :: p₀)
              = some (setRootAttr (setRootAttr (clearSelTagged (.elem t a st cs))
                  "data-selected" "true") "contentEditable" "true") :=
            getAt_modifyAt_self _ _ _ _ hget2
          simp only [himg, if_false, reduceIte] at h ⊢
          rw [hget3] at h
          simp only [Option.some.injEq] at h
          subst h
          exact ⟨_, trivial, rfl, rfl, hget3, rfl, rfl⟩

theorem allTaggedL_children_clearSelTagged (b : Node) :
    allTaggedL (clearSelTagged b).children = allTaggedL b.children := by
  match b with
  | .text s => rfl
  | .elem t a st cs =>
    simpa [clearSelTagged, mapAttrs, Node.children] using
      allTaggedL_mapAttrsL _ gTagged_id cs

theorem allTaggedL_children_modifyAt_setRoot (k v : String) (hk : k ≠ "data-editor-id")
    (b : Node) (q : List Nat) :
    allTaggedL (modifyAt (fun n => setRootAttr n k v) b q).children = allTaggedL b.children := by
  match b, q with
  | .text s, [] => rfl
  | .elem t a st cs, [] => rfl
  | .text s, i :: q => rfl
  | .elem t a st cs, i :: q =>
    simpa [modifyAt, Node.children] using allTaggedL_modifyAtL_setRoot k v hk cs i q

theorem allTaggedL_children_getAt (b : Node) (hTag : allTaggedL b.children = true)
    (i : Nat) (q : List Nat) (m : Node) (hm : getAt b (i :: q) = some m) :
    rootTagged m = true := by
  match b with
  | .text s => simp [getAt] at hm
  | .elem t a st cs =>
    simp only [getAt] at hm
    simp only [Node.children] at hTag
    exact allTaggedL_getAtL cs hTag i q m hm

theorem clickAt_nil (s : RtState) : clickAt s [] = none := rfl

/-- One system click, from a state whose content root has every element
under it tagged and every marked element tagged: the invariant is
preserved, exactly one element ends up carrying the `data-selected`
marker — the clicked one — and the host's stored identifier becomes that
element's identifier. -/
theorem sysClick_step (s : SysState) (p : List Nat) (s' : SysState)
    (hTag : allTaggedL s.rt.body.children = true)
    (hSub : selSubTagged s.rt.body = true)
    (h : sysClick s p = some s') :
    allTaggedL s'.rt.body.children = true ∧ selSubTagged s'.rt.body = true ∧
    selCount s'.rt.body = 1 ∧
    ∃ m, getAt s'.rt.body p = some m ∧
      (getAttrL m.attrs "data-selected").isSome = true ∧
      (getAttrL m.attrs "data-editor-id").isSome = true ∧
      s'.host.selectedId = getAttrL m.attrs "data-editor-id" := by
  rcases hclick : clickAt s.rt p with _ | r
  · rw [sysClick.eq_def, hclick] at h
    simp at h
  · rw [sysClick.eq_def, hclick] at h
    simp only [Option.some.injEq] at h
    subst h
    obtain ⟨t, a, st, cs, m, hget, hmdef, hbody, hm, hcaret, hmsg⟩ := clickAt_char s.rt p r hclick
    rcases p with _ | ⟨i, p₀⟩
    · rw [clickAt_nil] at hclick
      simp at hclick
    · have hid0 : (getAttrL a "data-editor-id").isSome = true := by
        simpa [rootTagged] using
          allTaggedL_children_getAt s.rt.body hTag i p₀ _ hget
      have hget1 : getAt (clearSelTagged s.rt.body) (i :: p₀)
          = some (clearSelTagged (.elem t a st cs)) := by
        simp only [clearSelTagged]
        rw [getAt_mapAttrs, hget]
        rfl
      have hcnt1 : selCount (clearSelTagged s.rt.body) = 0 := selCount_clearSelTagged _ hSub
      have hsub1 : selSubTagged (clearSelTagged s.rt.body) = true :=
        selCount_zero_selSub _ hcnt1
      have hbit1 : selBit (clearSelTagged (.elem t a st cs)) = 0 :=
        selCount_zero_selBit _ hcnt1 _ _ hget1
      -- attributes of the cleared clicked element
      have hattrs1 : (clearSelTagged (.elem t a st cs)).attrs
          = (if (getAttrL a "data-editor-id").isSome
              then removeAttrL a "data-selected" else a) := by
        simp [clearSelTagged, mapAttrs, Node.attrs]
      have hid1 : getAttrL (clearSelTagged (.elem t a st cs)).attrs "data-editor-id"
          = getAttrL a "data-editor-id" := by
        rw [hattrs1]
        exact gTagged_id a
      -- the marked element
      have hget2 : getAt (modifyAt (fun n => setRootAttr n "data-selected" "true")
            (clearSelTagged s.rt.body) (i :: p₀)) (i :: p₀)
          = some (setRootAttr (clearSelTagged (.elem t a st cs)) "data-selected" "true") :=
        getAt_modifyAt_self _ _ _ _ hget1
      have hattrs2 : (setRootAttr (clearSelTagged (.elem t a st cs))
            "data-selected" "true").attrs
          = setAttrL (clearSelTagged (.elem t a st cs)).attrs "data-selected" "true" := by
        rw [hattrs1]
        simp [clearSelTagged, mapAttrs, setRootAttr, Node.attrs]
      have hbit2 : selBit (setRootAttr (clearSelTagged (.elem t a st cs))
            "data-selected" "true") = 1 := by
        simp [selBit, hattrs2, getAttrL_setAttrL_self]
      have hid2 : getAttrL (setRootAttr (clearSelTagged (.elem t a st cs))
            "data-selected" "true").attrs "data-editor-id"
          = getAttrL a "data-editor-id" := by
        rw [hattrs2, getAttrL_setAttrL_ne _ _ _ _ (by decide), hid1]
      have hcnt2 : selCount (modifyAt (fun n => setRootAttr n "data-selected" "true")
            (clearSelTagged s.rt.body) (i :: p₀)) = 1 := by
        have heq := selCount_modifyAt_setRoot "data-selected" "true"
          (clearSelTagged s.rt.body) (i :: p₀) _ hget1
        omega
      have hsub2 : selSubTagged (modifyAt (fun n => setRootAttr n "data-selected" "true")
            (clearSelTagged s.rt.body) (i :: p₀)) = true := by
        apply selSubTagged_modifyAt_setRoot _ _ _ _ _ hsub1 hget1
        intro _
        rw [getAttrL_setAttrL_ne _ _ _ _ (by decide), hid1]
        exact hid0
      have htag1 : allTaggedL (modifyAt (fun n => setRootAttr n "data-selected" "true")
            (clearSelTagged s.rt.body) (i :: p₀)).children = true := by
        rw [allTaggedL_children_modifyAt_setRoot _ _ (by decide),
          allTaggedL_children_clearSelTagged]
        exact hTag
      by_cases himg : lowerStr t = "img"
      · rw [himg] at hbody hmdef
        simp only [if_true, reduceIte] at hbody hmdef
        constructor
        · rw [hbody]
          exact htag1
        · refine ⟨by rw [hbody]; exact hsub2, by rw [hbody]; exact hcnt2, m, hm, ?_, ?_, ?_⟩
          · rw [hmdef, hattrs2]
            simp [getAttrL_setAttrL_self]
          · rw [hmdef, hid2]
            exact hid0
          · rw [hmsg]
            simp [hostHandleMsg, Node.getAttr]
      · rw [if_neg himg] at hbody hmdef
        have hget3 : getAt (modifyAt (fun n => setRootAttr n "contentEditable" "true")
              (modifyAt (fun n => setRootAttr n "data-selected" "true")
                (clearSelTagged s.rt.body) (i :: p₀)) (i :: p₀)) (i :: p₀)
            = some (setRootAttr (setRootAttr (clearSelTagged (.elem t a st cs))
                "data-selected" "true") "contentEditable" "true") :=
          getAt_modifyAt_self _ _ _ _ hget2
        have hbit3 : selBit (setRootAttr (setRootAttr (clearSelTagged (.elem t a st cs))
              "data-selected" "true") "contentEditable" "true") = 1 := by
          show (if (getAttrL (setAttrL (setAttrL (clearSelTagged (.elem t a st cs)).attrs
            "data-selected" "true") "contentEditable" "true") "data-selected").isSome
            then 1 else 0) = 1
          rw [getAttrL_setAttrL_ne _ _ _ _ (by decide), getAttrL_setAttrL_self]
          rfl
        have hcnt3 : selCount (modifyAt (fun n => setRootAttr n "contentEditable" "true")
              (modifyAt (fun n => setRootAttr n "data-selected" "true")
                (clearSelTagged s.rt.body) (i :: p₀)) (i :: p₀)) = 1 := by
          have heq := selCount_modifyAt_setRoot "contentEditable" "true"
            (modifyAt (fun n => setRootAttr n "data-selected" "true")
              (clearSelTagged s.rt.body) (i :: p₀)) (i :: p₀) _ hget2
          omega
        have hsub3 : selSubTagged (modifyAt (fun n => setRootAttr n "contentEditable" "true")
              (modifyAt (fun n => setRootAttr n "data-selected" "true")
                (clearSelTagged s.rt.body) (i :: p₀)) (i :: p₀)) = true := by
          apply selSubTagged_modifyAt_setRoot _ _ _ _ _ hsub2 hget2
          intro _
          rw [getAttrL_setAttrL_ne _ _ _ _ (by decide), hid2]
          exact hid0
        constructor
        · rw [hbody, allTaggedL_children_modifyAt_setRoot _ _ (by decide)]
          exact htag1
        · refine ⟨by rw [hbody]; exact hsub3, by rw [hbody]; exact hcnt3, m, hm, ?_, ?_, ?_⟩
          · rw [hmdef]
            show (getAttrL (setAttrL (setAttrL (clearSelTagged (.elem t a st cs)).attrs
              "data-selected" "true") "contentEditable" "true") "data-selected").isSome = true
            rw [getAttrL_setAttrL_ne _ _ _ _ (by decide), getAttrL_setAttrL_self]
            rfl
          · rw [hmdef]
            show (getAttrL (setAttrL (setAttrL (clearSelTagged (.elem t a st cs)).attrs
              "data-selected" "true") "contentEditable" "true") "data-editor-id").isSome = true
            rw [getAttrL_setAttrL_ne _ _ _ _ (by decide),
              getAttrL_setAttrL_ne _ _ _ _ (by decide), hid1]
            exact hid0
          · rw [hmsg]
            simp [hostHandleMsg, Node.getAttr]

/-- C4: single active selection.  From any state whose rendered tree has
every element under the content root tagged and every marked element
tagged (the state a bootstrapped document is in), after any sequence of
clicks on identifiable elements ending with a click on the element at
`pB`, exactly one element carries the `data-selected` marker — the one
at `pB` — and the host's stored selected identifier equals that
element's identifier.  As this holds after every click, at most one
element is marked at every point of a click sequence. -/
theorem c4_single_selection (ps : List (List Nat)) (s : SysState) (pB : List Nat)
    (s' : SysState)
    (hTag : allTaggedL s.rt.body.children = true)
    (hSub : selSubTagged s.rt.body = true)
    (h : sysClicks s (ps ++ [pB]) = some s') :
    selCount s'.rt.body = 1 ∧
    ∃ m, getAt s'.rt.body pB = some m ∧
      (getAttrL m.attrs "data-selected").isSome = true ∧
      s'.host.selectedId = getAttrL m.attrs "data-editor-id" ∧
      (getAttrL m.attrs "data-editor-id").isSome = true := by
  induction ps generalizing s with
  | nil =>
    simp only [List.nil_append, sysClicks] at h
    rcases hstep : sysClick s pB with _ | s1
    · rw [hstep] at h
      simp at h
    · rw [hstep] at h
      simp only [sysClicks, Option.some.injEq] at h
      subst h
      obtain ⟨_, _, hcnt, m, hm, hsel, hid, hhost⟩ := sysClick_step s pB s1 hTag hSub hstep
      exact ⟨hcnt, m, hm, hsel, hhost, hid⟩
  | cons p ps ih =>
    simp only [List.cons_append, sysClicks] at h
    rcases hstep : sysClick s p with _ | s1
    · rw [hstep] at h
      simp at h
    · rw [hstep] at h
      obtain ⟨hTag1, hSub1, _, _⟩ := sysClick_step s p s1 hTag hSub hstep
      exact ih s1 hTag1 hSub1 h

/-- Witness for C4: clicking the first block then the second block of a
concrete tagged document leaves exactly the second block marked and the
host storing its identifier. -/
theorem c4_witness :
    allTaggedL sysW.rt.body.children = true ∧ selSubTagged sysW.rt.body = true ∧
    ∃ s' m, sysClicks sysW ([[0]] ++ [[1]]) = some s' ∧ selCount s'.rt.body = 1 ∧
      getAt s'.rt.body [1] = some m ∧
      (getAttrL m.attrs "data-selected").isSome = true ∧
      s'.host.selectedId = getAttrL m.attrs "data-editor-id" ∧
      (getAttrL m.attrs "data-editor-id").isSome = true := by
  refine ⟨by rfl, by rfl, ?_⟩
  rcases hrun : sysClicks sysW ([[0]] ++ [[1]]) with _ | s'
  · have hsome : (sysClicks sysW ([[0]] ++ [[1]])).isSome = true := rfl
    rw [hrun] at hsome
    simp at hsome
  · obtain ⟨hcnt, m, hm, hsel, hhost, hid⟩ :=
      c4_single_selection [[0]] sysW [1] s' (by rfl) (by rfl) hrun
    exact ⟨s', m, rfl, hcnt, hm, hsel, hhost, hid⟩

/-! ## Attribute preservation through the selection bookkeeping -/

theorem gTagged_ne (a : List (String × String)) (k : String) (hk : k ≠ "data-selected") :
    getAttrL (if (getAttrL a "data-editor-id").isSome
      then removeAttrL a "data-selected" else a) k = getAttrL a k := by
  by_cases hid : (getAttrL a "data-editor-id").isSome = true
  · simp [hid, getAttrL_removeAttrL_ne a "data-selected" k hk]
  · simp [hid]

theorem gAll_ne (a : List (String × String)) (k : String) (hk : k ≠ "data-selected") :
    getAttrL (if (getAttrL a "data-selected").isSome
      then removeAttrL a "data-selected" else a) k = getAttrL a k := by
  by_cases hds : (getAttrL a "data-selected").isSome = true
  · simp [hds, getAttrL_removeAttrL_ne a "data-selected" k hk]
  · simp [hds]

theorem mapAttrs_attrs_pres (g : List (String × String) → List (String × String))
    (hg : ∀ a k, k ≠ "data-selected" → getAttrL (g a) k = getAttrL a k)
    (m : Node) (k : String) (hk : k ≠ "data-selected") :
    getAttrL (mapAttrs g m).attrs k = getAttrL m.attrs k := by
  match m with
  | .text s => rfl
  | .elem t a st cs => simpa [mapAttrs, Node.attrs] using hg a k hk

mutual
theorem getAt_modifyAt_setRoot_attr (k v : String) (b : Node) (p q : List Nat) (m : Node)
    (h : getAt b q = some m) :
    ∃ m', getAt (modifyAt (fun n => setRootAttr n k v) b p) q = some m' ∧
      (∀ k', k' ≠ k → getAttrL m'.attrs k' = getAttrL m.attrs k') ∧
      (getAttrL m.attrs k = some v → getAttrL m'.attrs k = some v) := by
  match b, p, q with
  | b, [], [] =>
    have hm : m = b := by simpa [getAt] using h.symm
    subst hm
    refine ⟨setRootAttr m k v, by simp [modifyAt, getAt], ?_, ?_⟩
    · intro k' hk'
      match m with
      | .text s => rfl
      | .elem t a st cs =>
        simpa [setRootAttr, Node.attrs] using getAttrL_setAttrL_ne a k v k' hk'
    · intro hv
      match m with
      | .text s => exact absurd hv (by simp [Node.attrs, getAttrL])
      | .elem t a st cs =>
        simpa [setRootAttr, Node.attrs] using getAttrL_setAttrL_self a k v
  | .text s, [], j :: q' => simp [getAt] at h
  | .elem t a st cs, [], j :: q' =>
    simp only [getAt] at h
    exact ⟨m, by simpa [modifyAt, setRootAttr, getAt] using h, fun _ _ => rfl, fun hv => hv⟩
  | .text s, i :: p', [] =>
    have hm : m = .text s := by simpa [getAt] using h.symm
    subst hm
    exact ⟨.text s, by simp [modifyAt, getAt], fun _ _ => rfl, fun hv => hv⟩
  | .elem t a st cs, i :: p', [] =>
    have hm : m = .elem t a st cs := by simpa [getAt] using h.symm
    subst hm
    exact ⟨.elem t a st (modifyAtL (fun n => setRootAttr n k v) cs i p'),
      by simp [modifyAt, getAt], fun _ _ => rfl, fun hv => hv⟩
  | .text s, i :: p', j :: q' => simp [getAt] at h
  | .elem t a st cs, i :: p', j :: q' =>
    simp only [getAt] at h
    obtain ⟨m', hm', hp, hpv⟩ := getAtL_modifyAtL_setRoot_attr k v cs i j p' q' m h
    exact ⟨m', by simpa [modifyAt, getAt] using hm', hp, hpv⟩

theorem getAtL_modifyAtL_setRoot_attr (k v : String) (cs : List Node) (i j : Nat)
    (p q : List Nat) (m : Node) (h : getAtL cs j q = some m) :
    ∃ m', getAtL (modifyAtL (fun n => setRootAttr n k v) cs i p) j q = some m' ∧
      (∀ k', k' ≠ k → getAttrL m'.attrs k' = getAttrL m.attrs k') ∧
      (getAttrL m.attrs k = some v → getAttrL m'.attrs k = some v) := by
  match cs, i, j with
  | [], _, _ => simp [getAtL] at h
  | c :: cs, 0, 0 =>
    simp only [getAtL] at h
    obtain ⟨m', hm', hp, hpv⟩ := getAt_modifyAt_setRoot_attr k v c p q m h
    exact ⟨m', by simpa [modifyAtL, getAtL] using hm', hp, hpv⟩
  | c :: cs, 0, j + 1 =>
    exact ⟨m, by simpa [modifyAtL, getAtL] using h, fun _ _ => rfl, fun hv => hv⟩
  | c :: cs, i + 1, 0 =>
    exact ⟨m, by simpa [modifyAtL, getAtL] using h, fun _ _ => rfl, fun hv => hv⟩
  | c :: cs, i + 1, j + 1 =>
    simp only [getAtL] at h
    obtain ⟨m', hm', hp, hpv⟩ := getAtL_modifyAtL_setRoot_attr k v cs i j p q m h
    exact ⟨m', by simpa [modifyAtL, getAtL] using hm', hp, hpv⟩
end

/-! ## Patch-entry lemmas -/

theorem applyEntry_no_innerHTML_getAt (pf : String → List Node) (n : Node) (k v : String)
    (hk : k ≠ "innerHTML") (j : Nat) (r : List Nat) :
    getAt (applyEntry pf n (k, v)) (j :: r) = getAt n (j :: r) := by
  match n with
  | .text s => rfl
  | .elem t a st cs =>
    by_cases hsrc : k = "src" ∧ lowerStr t = "img"
    · simp [applyEntry, hk, hsrc, getAt]
    · simp [applyEntry, hk, hsrc, getAt]

theorem foldl_applyEntry_no_innerHTML_getAt (pf : String → List Node)
    (props : List (String × String)) (hprops : "innerHTML" ∉ props.map Prod.fst)
    (n : Node) (j : Nat) (r : List Nat) :
    getAt (props.foldl (applyEntry pf) n) (j :: r) = getAt n (j :: r) := by
  induction props generalizing n with
  | nil => rfl
  | cons kv rest ih =>
    simp only [List.map_cons, List.mem_cons] at hprops
    push_neg at hprops
    rw [List.foldl_cons, ih hprops.2]
    exact applyEntry_no_innerHTML_getAt pf n kv.1 kv.2 (Ne.symm hprops.1) j r

/-- C3: handling `apply-props` for an identifier that matches an element
applies the patch entries, in order, to the element located by that
identifier, where one entry acts as follows: `innerHTML` replaces the
element's children (its structural content) with the parsed fragment,
`src` on an element whose tag is `img` sets its `src` attribute, and
every other key (including `src` on a non-image) is written verbatim as
a style declaration; no message is posted back. -/
theorem c3_apply_props (pf : String → List Node) (s : RtState) (i : String)
    (props : List (String × String)) (p : List Nat) (e : Node)
    (hfind : findFirst i s.body = some p) (hget : getAt s.body p = some e) :
    (∃ s', handleCmd pf s (.applyProps i props) = (s', []) ∧
      getAt s'.body p = some (props.foldl (applyEntry pf) e)) ∧
    (∀ t a st cs v, applyEntry pf (.elem t a st cs) ("innerHTML", v) = .elem t a st (pf v)) ∧
    (∀ t a st cs v, lowerStr t = "img" →
      applyEntry pf (.elem t a st cs) ("src", v) = .elem t (setAttrL a "src" v) st cs) ∧
    (∀ t a st cs k v, k ≠ "innerHTML" → ¬(k = "src" ∧ lowerStr t = "img") →
      applyEntry pf (.elem t a st cs) (k, v) = .elem t a (setAttrL st k v) cs) := by
  refine ⟨?_, ?_, ?_, ?_⟩
  · refine ⟨{ s with body := modifyAt (fun n => props.foldl (applyEntry pf) n) s.body p }, ?_, ?_⟩
    · simp [handleCmd, hfind]
    · exact getAt_modifyAt_self _ _ _ _ hget
  · intro t a st cs v
    simp [applyEntry]
  · intro t a st cs v himg
    simp [applyEntry, himg]
  · intro t a st cs k v hk hsrc
    simp [applyEntry, hk, hsrc]

/-- Witness for C3: applying `{background: red}` to the identified
paragraph of a concrete document updates exactly the located element's
style declarations. -/
theorem c3_witness :
    findFirst "el-2" rtW.body = some [1] ∧
    ∃ s', handleCmd pfNil rtW (.applyProps "el-2" [("background", "red")]) = (s', []) ∧
      getAt s'.body [1] = some (.elem "p" [("data-editor-id", "el-2")]
        [("color", "blue"), ("background", "red")] [.text "t"]) := by
  refine ⟨by rfl, ?_⟩
  obtain ⟨⟨s', hcmd, hg⟩, _, _, _⟩ := c3_apply_props pfNil rtW "el-2" [("background", "red")] [1]
    (.elem "p" [("data-editor-id", "el-2")] [("color", "blue")] [.text "t"]) (by rfl) (by rfl)
  refine ⟨s', hcmd, ?_⟩
  rw [hg]
  rfl

/-- C5: property isolation.  When an `apply-props` command addressed to an
identifier that locates the element at path `p` is handled, every
element other than that one and other than those inside its replaced
structural content keeps its tag, all of its attributes and all of its
style declarations; and when the patch carries no `innerHTML` entry,
every element other than the addressed one — its descendants included —
keeps them as well. -/
theorem c5_property_isolation (pf : String → List Node) (s : RtState) (i : String)
    (props : List (String × String)) (p : List Nat)
    (hfind : findFirst i s.body = some p) :
    (∀ q m, getAt s.body q = some m → ¬ PathBelow p q →
      ∃ m', getAt (handleCmd pf s (.applyProps i props)).1.body q = some m' ∧
        m'.tag = m.tag ∧ m'.attrs = m.attrs ∧ m'.styles = m.styles) ∧
    ("innerHTML" ∉ props.map Prod.fst →
      ∀ q m, getAt s.body q = some m → q ≠ p →
        ∃ m', getAt (handleCmd pf s (.applyProps i props)).1.body q = some m' ∧
          m'.tag = m.tag ∧ m'.attrs = m.attrs ∧ m'.styles = m.styles) := by
  have hbody : (handleCmd pf s (.applyProps i props)).1.body
      = modifyAt (fun n => props.foldl (applyEntry pf) n) s.body p := by
    simp [handleCmd, hfind]
  constructor
  · intro q m hq hnb
    obtain ⟨m', hm', hsh, _⟩ :=
      getAt_modifyAt_shell (fun n => props.foldl (applyEntry pf) n) s.body p q m hnb hq
    exact ⟨m', by rwa [hbody], hsh.1, hsh.2.1, hsh.2.2⟩
  · intro hni q m hq hqp
    by_cases hnb : PathBelow p q
    · obtain ⟨r, hr⟩ := hnb
      subst hr
      rcases r with _ | ⟨j, r'⟩
      · simp at hqp
      · rw [getAt_append] at hq
        rcases hn : getAt s.body p with _ | n
        · rw [hn] at hq
          simp at hq
        · rw [hn] at hq
          simp only [Option.some_bind] at hq
          refine ⟨m, ?_, rfl, rfl, rfl⟩
          rw [hbody, getAt_modifyAt_below _ _ _ _ _ hn,
            foldl_applyEntry_no_innerHTML_getAt pf props hni]
          exact hq
    · obtain ⟨m', hm', hsh, _⟩ :=
        getAt_modifyAt_shell (fun n => props.foldl (applyEntry pf) n) s.body p q m hnb hq
      exact ⟨m', by rwa [hbody], hsh.1, hsh.2.1, hsh.2.2⟩

/-- Witness for C5: replacing the first block's content leaves the sibling
paragraph's tag, attributes and styles untouched. -/
theorem c5_witness :
    findFirst "el-1" rtW.body = some [0] ∧
    ∃ m', getAt (handleCmd pfNil rtW
        (.applyProps "el-1" [("innerHTML", "x")])).1.body [1] = some m' ∧
      m'.tag = "p" ∧ m'.attrs = [("data-editor-id", "el-2")] ∧
      m'.styles = [("color", "blue")] := by
  refine ⟨by rfl, ?_⟩
  obtain ⟨h1, _⟩ := c5_property_isolation pfNil rtW "el-1" [("innerHTML", "x")] [0] (by rfl)
  obtain ⟨m', hm', ht, ha, hs⟩ := h1 [1]
    (.elem "p" [("data-editor-id", "el-2")] [("color", "blue")] [.text "t"]) (by rfl)
    (by rintro ⟨r, hr⟩; simp at hr)
  refine ⟨m', hm', ?_, ?_, ?_⟩
  · rw [ht]; rfl
  · rw [ha]; rfl
  · rw [hs]; rfl

/-- C6: image vs. text branching on click.  Clicking the element at `p`
when its (lower-cased) tag is `img` leaves its `contentEditable`
attribute exactly as it was and does not move the caret; clicking it
when its tag is not `img` sets `contentEditable` to `true` on it and
moves the caret into its contents. -/
theorem c6_img_branching (s : RtState) (p : List Nat) (r : RtState × OutMsg) (e : Node)
    (hget : getAt s.body p = some e) (h : clickAt s p = some r) :
    (lowerStr e.tag = "img" → ∃ e', getAt r.1.body p = some e' ∧
      getAttrL e'.attrs "contentEditable" = getAttrL e.attrs "contentEditable" ∧
      r.1.caret = s.caret) ∧
    (lowerStr e.tag ≠ "img" → ∃ e', getAt r.1.body p = some e' ∧
      getAttrL e'.attrs "contentEditable" = some "true" ∧
      r.1.caret = some p) := by
  obtain ⟨t, a, st, cs, m, hget0, hmdef, hbody, hm, hcaret, hmsg⟩ := clickAt_char s p r h
  have he : e = .elem t a st cs := by
    rw [hget] at hget0
    exact Option.some.inj hget0
  subst he
  have htag : Node.tag (.elem t a st cs) = t := rfl
  constructor
  · intro himg
    rw [htag] at himg
    rw [himg] at hmdef hcaret
    simp only [if_true, reduceIte] at hmdef hcaret
    refine ⟨m, hm, ?_, hcaret⟩
    rw [hmdef]
    show getAttrL (setAttrL (clearSelTagged (.elem t a st cs)).attrs
      "data-selected" "true") "contentEditable" = _
    rw [getAttrL_setAttrL_ne _ _ _ _ (by decide)]
    show getAttrL (if (getAttrL a "data-editor-id").isSome
      then removeAttrL a "data-selected" else a) "contentEditable" = _
    rw [gTagged_ne a "contentEditable" (by decide)]
    rfl
  · intro himg
    rw [htag] at himg
    rw [if_neg himg] at hmdef hcaret
    refine ⟨m, hm, ?_, hcaret⟩
    rw [hmdef]
    show getAttrL (setAttrL (setAttrL (clearSelTagged (.elem t a st cs)).attrs
      "data-selected" "true") "contentEditable" "true") "contentEditable" = some "true"
    rw [getAttrL_setAttrL_self]

/-- Witness for C6: clicking the image of a concrete document leaves it
without `contentEditable` and the caret unmoved; clicking the paragraph
sets `contentEditable` and moves the caret into it. -/
theorem c6_witness :
    (∃ r, clickAt rtImgW [0] = some r ∧ ∃ e', getAt r.1.body [0] = some e' ∧
      getAttrL e'.attrs "contentEditable" = none ∧ r.1.caret = none) ∧
    (∃ r, clickAt rtImgW [1] = some r ∧ ∃ e', getAt r.1.body [1] = some e' ∧
      getAttrL e'.attrs "contentEditable" = some "true" ∧ r.1.caret = some [1]) := by
  constructor
  · rcases hr : clickAt rtImgW [0] with _ | r
    · have hsome : (clickAt rtImgW [0]).isSome = true := rfl
      rw [hr] at hsome
      simp at hsome
    · obtain ⟨h1, _⟩ := c6_img_branching rtImgW [0] r
        (.elem "img" [("data-editor-id", "el-1"), ("src", "a.png")] [] []) (by rfl) hr
      obtain ⟨e', he', hce, hcar⟩ := h1 (by rfl)
      exact ⟨r, rfl, e', he', by rw [hce]; rfl, hcar⟩
  · rcases hr : clickAt rtImgW [1] with _ | r
    · have hsome : (clickAt rtImgW [1]).isSome = true := rfl
      rw [hr] at hsome
      simp at hsome
    · obtain ⟨_, h2⟩ := c6_img_branching rtImgW [1] r
        (.elem "p" [("data-editor-id", "el-2")] [] [.text "t"]) (by rfl) hr
      obtain ⟨e', he', hce, hcar⟩ := h2 (by decide)
      exact ⟨r, rfl, e', he', hce, hcar⟩

/-- C7: handling a `clear-selection` command removes the `data-selected`
marker from every element (afterwards none is marked) and posts nothing
back to the host; on the host side, `clearSelection` posts the command
and resets both the stored selected identifier and the selection info to
empty. -/
theorem c7_clear_selection (pf : String → List Node) (s : RtState) (h : HostState) :
    (handleCmd pf s Cmd.clearSelection).2 = [] ∧
    selCount (handleCmd pf s Cmd.clearSelection).1.body = 0 ∧
    (hostClearSelection h).1.selectedId = none ∧
    (hostClearSelection h).1.selectionInfo = none ∧
    (hostClearSelection h).2 = [Cmd.clearSelection] := by
  exact ⟨rfl, selCount_clearSelAll s.body, rfl, rfl, rfl⟩

/-- C8: a property-change command with no target is a silent no-op.  With
no selected identifier, `applyPropsToSelected` sends nothing and leaves
the host state unchanged; and an `apply-props` command whose identifier
matches no element leaves the runtime's document unchanged and posts
nothing.  Both functions are total, so no error is raised. -/
theorem c8_missing_target_noop (h : HostState) (props : List (String × String))
    (pf : String → List Node) (s : RtState) (i : String)
    (hsel : h.selectedId = none) (hfind : findFirst i s.body = none) :
    applyPropsToSelected h props = (h, []) ∧
    handleCmd pf s (.applyProps i props) = (s, []) := by
  constructor
  · simp [applyPropsToSelected, hsel]
  · simp [handleCmd, hfind]

/-- Witness for C8 at an empty host selection and an identifier absent
from a concrete document. -/
theorem c8_witness :
    (⟨none, none⟩ : HostState).selectedId = none ∧
    findFirst "el-9" rtW.body = none ∧
    applyPropsToSelected ⟨none, none⟩ [("background", "red")] = (⟨none, none⟩, []) ∧
    handleCmd pfNil rtW (.applyProps "el-9" [("background", "red")]) = (rtW, []) := by
  have hc := c8_missing_target_noop ⟨none, none⟩ [("background", "red")] pfNil rtW "el-9"
    rfl (by rfl)
  exact ⟨rfl, by rfl, hc.1, hc.2⟩

/-! ## Persistence of `contentEditable` (C10) -/

theorem rtStep_preserves_cE (s : RtState) (ev : UiEvent) (s' : RtState)
    (h : rtStep s ev = some s') (q : List Nat) (m : Node)
    (hq : getAt s.body q = some m)
    (hce : getAttrL m.attrs "contentEditable" = some "true") :
    ∃ m', getAt s'.body q = some m' ∧ getAttrL m'.attrs "contentEditable" = some "true" := by
  match ev with
  | .clearSel =>
    have hs' : s' = { s with body := clearSelAll s.body } := by
      simpa [rtStep] using h.symm
    subst hs'
    refine ⟨mapAttrs (fun a =>
      if (getAttrL a "data-selected").isSome then removeAttrL a "data-selected" else a) m, ?_, ?_⟩
    · show getAt (clearSelAll s.body) q = _
      simp only [clearSelAll]
      rw [getAt_mapAttrs, hq]
      rfl
    · rw [mapAttrs_attrs_pres _ (fun a k hk => gAll_ne a k hk) m "contentEditable" (by decide)]
      exact hce
  | .click p =>
    simp only [rtStep, Option.map_eq_some'] at h
    obtain ⟨r, hclick, hr⟩ := h
    subst hr
    obtain ⟨t, a, st, cs, m0, hget, hmdef, hbody, hm0, hcaret, hmsg⟩ := clickAt_char s p r hclick
    have hq1 : getAt (clearSelTagged s.body) q
        = some (mapAttrs (fun a =>
          if (getAttrL a "data-editor-id").isSome then removeAttrL a "data-selected" else a) m) := by
      simp only [clearSelTagged]
      rw [getAt_mapAttrs, hq]
      rfl
    have hce1 : getAttrL (mapAttrs (fun a =>
        if (getAttrL a "data-editor-id").isSome then removeAttrL a "data-selected" else a)
        m).attrs "contentEditable" = some "true" := by
      rw [mapAttrs_attrs_pres _ (fun a k hk => gTagged_ne a k hk) m "contentEditable" (by decide)]
      exact hce
    obtain ⟨m2, hq2, hp2, _⟩ := getAt_modifyAt_setRoot_attr "data-selected" "true"
      (clearSelTagged s.body) p q _ hq1
    have hce2 : getAttrL m2.attrs "contentEditable" = some "true" := by
      rw [hp2 "contentEditable" (by decide)]
      exact hce1
    by_cases himg : lowerStr t = "img"
    · rw [himg] at hbody
      simp only [if_true, reduceIte] at hbody
      exact ⟨m2, by rwa [hbody], hce2⟩
    · rw [if_neg himg] at hbody
      obtain ⟨m3, hq3, _, hpv3⟩ := getAt_modifyAt_setRoot_attr "contentEditable" "true"
        (modifyAt (fun n => setRootAttr n "data-selected" "true") (clearSelTagged s.body) p)
        p q _ hq2
      exact ⟨m3, by rwa [hbody], hpv3 hce2⟩

/-- C10: once an element carries `contentEditable="true"` (as a non-image
element does after being clicked), no later click on any element and no
`clear-selection` command ever removes it: after any sequence of such
events the element still carries `contentEditable="true"` (only the
`data-selected` marker is ever removed). -/
theorem c10_contentEditable_persists (evs : List UiEvent) (s s' : RtState)
    (h : rtRun s evs = some s') (q : List Nat) (m : Node)
    (hq : getAt s.body q = some m)
    (hce : getAttrL m.attrs "contentEditable" = some "true") :
    ∃ m', getAt s'.body q = some m' ∧ getAttrL m'.attrs "contentEditable" = some "true" := by
  induction evs generalizing s m with
  | nil =>
    have : s' = s := by simpa [rtRun] using h.symm
    subst this
    exact ⟨m, hq, hce⟩
  | cons ev evs ih =>
    simp only [rtRun] at h
    rcases hstep : rtStep s ev with _ | s1
    · rw [hstep] at h
      simp at h
    · rw [hstep] at h
      obtain ⟨m1, hq1, hce1⟩ := rtStep_preserves_cE s ev s1 hstep q m hq hce
      exact ih s1 h m1 hq1 hce1

/-- Witness for C10: a block made editable earlier keeps
`contentEditable="true"` through a click on its sibling followed by a
`clear-selection`. -/
theorem c10_witness :
    getAt rtCEW.body [0] = some (.elem "div"
      [("data-editor-id", "el-1"), ("contentEditable", "true")] [] []) ∧
    ∃ s' m', rtRun rtCEW [.click [1], .clearSel] = some s' ∧
      getAt s'.body [0] = some m' ∧
      getAttrL m'.attrs "contentEditable" = some "true" := by
  refine ⟨rfl, ?_⟩
  rcases hrun : rtRun rtCEW [.click [1], .clearSel] with _ | s'
  · have hsome : (rtRun rtCEW [.click [1], .clearSel]).isSome = true := rfl
    rw [hrun] at hsome
    simp at hsome
  · obtain ⟨m', hm', hce⟩ := c10_contentEditable_persists [.click [1], .clearSel] rtCEW s' hrun
      [0] (.elem "div" [("data-editor-id", "el-1"), ("contentEditable", "true")] [] [])
      rfl (by rfl)
    exact ⟨s', m', rfl, hm', hce⟩

/-- C9: for every HTML input text (the parse function is total: lenient
`text/html` parsing never raises), `buildIframeContents` returns, with no
error, the doctype declaration followed by the serialized document in
which every element under the content root has been tagged, the style
block defining the selected-marker highlight and pointer cursor has been
appended to the head, and the behavior script has been appended to the
body (after tagging, so the script element itself is untagged). -/
theorem c9_bootstrap_output (parse : String → HtmlDoc) (html : String) :
    buildIframeContents parse html
      = "<!doctype html>\n" ++ serializeNode (.elem "html" (parse html).htmlAttrs []
          [appendChild (parse html).headNode styleElem,
           appendChild (attachEditorIds (parse html).bodyNode) scriptElem]) ∧
    allTaggedL (attachEditorIds (parse html).bodyNode).children = true ∧
    (appendChild (parse html).headNode styleElem).children
      = (parse html).headChildren ++ [styleElem] ∧
    (appendChild (attachEditorIds (parse html).bodyNode) scriptElem).children
      = (attachEditorIds (parse html).bodyNode).children ++ [scriptElem] := by
  exact ⟨rfl, attachEditorIds_allTagged _, rfl, rfl⟩
